import Mathlib

/-!
# crawlab RPC layer (`backend/services/rpc.go`)

A shallow embedding of the request/reply protocol that `rpc.go` builds on a
node-keyed Redis list, together with the part of Go's `encoding/json` that the
protocol uses as its wire codec.

* Go strings are byte sequences.  A string is represented by its decomposition
  under `utf8.DecodeRune`: every element is either a decoded code point or a
  byte that is not part of a valid UTF-8 encoding.
* `json.Marshal` and `json.Unmarshal` are embedded for the types that occur in
  `rpc.go`: `string`, `map[string]string`, the struct `RpcMessage` and the
  slice of dependency records.  The encoder escapes as the Go release of the
  repository does (HTML escaping on, `\u00XX` for control characters other
  than tab, line feed and carriage return).  The decoder accepts the whole
  JSON grammar: it checks the syntax of the document first and then stores
  the members that select a field, as `Unmarshal` does.
* Maps are association lists with one entry per key; the nil map and the nil
  slice are `none`.  Two maps are equal when `reflect.DeepEqual` says so.
* The Redis client, the node lookup and the installers are collaborators of
  `rpc.go`.  The queue store is explicit state with a log of the commands it
  received; the installers are parameters.
* `RpcClientFunc` pushes and then blocks in a pop.  What other processes do to
  the queue in between is a parameter of the embedding, so that a call can be
  run against a server loop or against nobody.
* `InitRpcService` starts the loop in a goroutine and returns; the embedding
  is the loop itself, iteration by iteration.
-/

namespace Crawlab

/-! ## Go strings -/

/-- One step of `utf8.DecodeRune` over a Go string: a code point, or a single
byte that does not start a valid encoding (`RuneError` with width 1). -/
inductive GoChar where
  | rune (c : Nat)
  | bad (b : Nat)
  deriving DecidableEq, Repr

/-- A Go `string`. -/
abbrev GoString := List GoChar

/-- A Go string literal (always valid UTF-8). -/
def lit (s : String) : GoString := s.toList.map fun c => GoChar.rune c.toNat

/-- Whether the element is a properly encoded code point. -/
def GoChar.isRune : GoChar → Bool
  | .rune _ => true
  | .bad _ => false

/-- A string is valid UTF-8 when no element is a stray byte (`utf8.ValidString`). -/
def validUTF8 (s : GoString) : Bool := s.all GoChar.isRune

/-- Replacement of every invalid byte by U+FFFD, which is what both the JSON
encoder and the JSON decoder do to string contents. -/
def coerceChar : GoChar → GoChar
  | .rune c => .rune c
  | .bad _ => .rune 0xFFFD

/-- Coercion of a whole string to valid UTF-8. -/
def coerce (s : GoString) : GoString := s.map coerceChar

/-! ## `encoding/json`: string encoding (`encodeState.string`, HTML escaping on) -/

/-- The table `hex = "0123456789abcdef"`. -/
def hexDigit (n : Nat) : GoChar := GoChar.rune (if n < 10 then 48 + n else 87 + n)

/-- Encoding of one element of a string inside a JSON string literal. -/
def encodeChar : GoChar → GoString
  | .bad _ => [.rune 92, .rune 117, .rune 102, .rune 102, .rune 102, .rune 100]
  | .rune c =>
    if c = 34 ∨ c = 92 then [.rune 92, .rune c]
    else if c = 10 then [.rune 92, .rune 110]
    else if c = 13 then [.rune 92, .rune 114]
    else if c = 9 then [.rune 92, .rune 116]
    else if c < 32 ∨ c = 60 ∨ c = 62 ∨ c = 38 then
      [.rune 92, .rune 117, .rune 48, .rune 48, hexDigit (c / 16), hexDigit (c % 16)]
    else if c = 0x2028 ∨ c = 0x2029 then
      [.rune 92, .rune 117, .rune 50, .rune 48, .rune 50, hexDigit (c % 16)]
    else [.rune c]

/-- Body of a JSON string literal (between the quotes). -/
def encodeChars : GoString → GoString
  | [] => []
  | x :: xs => encodeChar x ++ encodeChars xs

/-- A JSON string literal for a Go string. -/
def encodeString (s : GoString) : GoString := .rune 34 :: (encodeChars s ++ [.rune 34])

/-! ## `encoding/json`: scanning and unquoting string literals -/

/-- Value of a hexadecimal digit (`getu4` accepts both cases). -/
def hexVal : GoChar → Option Nat
  | .rune c =>
    if 48 ≤ c ∧ c ≤ 57 then some (c - 48)
    else if 97 ≤ c ∧ c ≤ 102 then some (c - 87)
    else if 65 ≤ c ∧ c ≤ 70 then some (c - 55)
    else none
  | .bad _ => none

/-- Four hexadecimal digits of a `\u` escape (`getu4`). -/
def getu4 (a b c d : GoChar) : Option Nat :=
  match hexVal a, hexVal b, hexVal c, hexVal d with
  | some x, some y, some z, some w => some (((x * 16 + y) * 16 + z) * 16 + w)
  | _, _, _, _ => none

/-- The one-character escapes the scanner accepts after a backslash. -/
def simpleEscape (e : Nat) : Option Nat :=
  if e = 34 then some 34
  else if e = 92 then some 92
  else if e = 47 then some 47
  else if e = 98 then some 8
  else if e = 102 then some 12
  else if e = 110 then some 10
  else if e = 114 then some 13
  else if e = 116 then some 9
  else none

/-- Whether a code unit is a UTF-16 surrogate (`utf16.IsSurrogate`). -/
def isSurrogate (n : Nat) : Bool := 0xD800 ≤ n && n < 0xE000

/-- Combination of a surrogate pair (`utf16.DecodeRune`); `none` when the two
units do not form a pair. -/
def decodeSurrogates (hi lo : Nat) : Option Nat :=
  if 0xD800 ≤ hi ∧ hi < 0xDC00 ∧ 0xDC00 ≤ lo ∧ lo < 0xE000 then
    some ((hi - 0xD800) * 1024 + (lo - 0xDC00) + 0x10000)
  else none

/-- Prepends a decoded element to the contents scanned so far. -/
def pushChar (x : GoChar) (p : GoString × GoString) : GoString × GoString := (x :: p.1, p.2)

/-- Outcome of looking at the next element of a string literal: the literal is
invalid, it ends here, or one element is decoded from the next `n` inputs. -/
inductive StrStep where
  | fail
  | close
  | emit (x : GoChar) (n : Nat)
  deriving DecidableEq, Repr

/-- The `\uXXXX` escape at the head of the input, if there is one. -/
def nextU4 : GoString → Option Nat
  | p :: q :: e1 :: e2 :: e3 :: e4 :: _ =>
    if p = .rune 92 ∧ q = .rune 117 then getu4 e1 e2 e3 e4 else none
  | _ => none

/-- The input after `\u`: four hexadecimal digits; a surrogate is combined with
a following low surrogate when they form a pair and is replaced by U+FFFD
otherwise. -/
def scanU : GoString → StrStep
  | a :: b :: x :: d :: rest =>
    match getu4 a b x d with
    | none => .fail
    | some n =>
      if isSurrogate n then
        match (nextU4 rest).bind (decodeSurrogates n) with
        | some r => .emit (.rune r) 12
        | none => .emit (.rune 0xFFFD) 6
      else .emit (.rune n) 6
  | _ => .fail

/-- The input after a backslash. -/
def scanEscape : GoString → StrStep
  | .rune e :: rest =>
    if e = 117 then scanU rest
    else
      match simpleEscape e with
      | some r => .emit (.rune r) 2
      | none => .fail
  | _ => .fail

/-- One iteration of the unquoting loop: control characters and an unescaped
end of input are invalid, a quote closes the literal, a stray byte decodes to
U+FFFD, everything else is copied. -/
def scanStep : GoString → StrStep
  | [] => .fail
  | .bad _ :: _ => .emit (.rune 0xFFFD) 1
  | .rune c :: rest =>
    if c = 34 then .close
    else if c < 32 then .fail
    else if c = 92 then scanEscape rest
    else .emit (.rune c) 1

/-- The unquoting loop.  The first argument is the number of inputs that the
previous iteration has already consumed beyond the current position. -/
def scanFrom : Nat → GoString → Option (GoString × GoString)
  | _, [] => none
  | k + 1, _ :: rest => scanFrom k rest
  | 0, x :: rest =>
    match scanStep (x :: rest) with
    | .fail => none
    | .close => some ([], rest)
    | .emit y n => (scanFrom (n - 1) rest).map (pushChar y)

/-- Scans a string literal whose opening quote has been consumed and unquotes
it: returns the decoded contents and the input after the closing quote, or
`none` when the literal is not valid JSON. -/
def scanString (s : GoString) : Option (GoString × GoString) := scanFrom 0 s

/-! ## `encoding/json`: the value grammar -/

/-- A parsed JSON value.  Numbers carry no payload: none of the Go types
decoded here accepts one. -/
inductive JValue where
  | null
  | bool (b : Bool)
  | num
  | str (s : GoString)
  | arr (xs : List JValue)
  | obj (kvs : List (GoString × JValue))

/-- JSON insignificant whitespace: space, tab, carriage return, line feed. -/
def isSpace : GoChar → Bool
  | .rune c => c = 32 || c = 9 || c = 13 || c = 10
  | .bad _ => false

/-- Drops leading whitespace. -/
def skipSpace : GoString → GoString
  | [] => []
  | x :: xs => if isSpace x then skipSpace xs else x :: xs

/-- Whether the input starts with the given ASCII character. -/
def headIs (c : Nat) : GoString → Bool
  | x :: _ => x = .rune c
  | [] => false

/-- Whether the element is a decimal digit. -/
def isDigit : GoChar → Bool
  | .rune c => 48 ≤ c && c ≤ 57
  | .bad _ => false

/-- Drops the leading run of digits and tells whether it was non-empty. -/
def dropDigits : GoString → Bool × GoString
  | [] => (false, [])
  | x :: xs => if isDigit x then (true, (dropDigits xs).2) else (false, x :: xs)

/-- Optional exponent of a number. -/
def scanExponent (s : GoString) : Option GoString :=
  if headIs 101 s || headIs 69 s then
    let s1 := s.tail
    let s2 := if headIs 43 s1 || headIs 45 s1 then s1.tail else s1
    let d := dropDigits s2
    if d.1 then some d.2 else none
  else some s

/-- Optional fraction and exponent of a number. -/
def scanFraction (s : GoString) : Option GoString :=
  if headIs 46 s then
    let d := dropDigits s.tail
    if d.1 then scanExponent d.2 else none
  else scanExponent s

/-- Scans a number literal and returns the input after it. -/
def scanNumber (s : GoString) : Option GoString :=
  let s1 := if headIs 45 s then s.tail else s
  if headIs 48 s1 then scanFraction s1.tail
  else
    let d := dropDigits s1
    if d.1 then scanFraction d.2 else none

/-- Scans one of the literals `true`, `false`, `null`. -/
def scanLiteral (s : GoString) : Option (JValue × GoString) :=
  if s.take 4 = lit "true" then some (.bool true, s.drop 4)
  else if s.take 5 = lit "false" then some (.bool false, s.drop 5)
  else if s.take 4 = lit "null" then some (.null, s.drop 4)
  else none

mutual
/-- Parses one JSON value after optional whitespace and returns it with the
remaining input.  The first argument bounds the number of nested calls; every
call consumes input before it recurses, so twice the length of the input plus
one is always enough. -/
def parseValue : Nat → GoString → Option (JValue × GoString)
  | 0, _ => none
  | f + 1, s =>
    let s0 := skipSpace s
    if headIs 34 s0 then (scanString s0.tail).map fun p => (.str p.1, p.2)
    else if headIs 123 s0 then
      let s1 := skipSpace s0.tail
      if headIs 125 s1 then some (.obj [], s1.tail)
      else (parseMembers f s1).map fun p => (.obj p.1, p.2)
    else if headIs 91 s0 then
      let s1 := skipSpace s0.tail
      if headIs 93 s1 then some (.arr [], s1.tail)
      else (parseElements f s1).map fun p => (.arr p.1, p.2)
    else if headIs 45 s0 || isDigit (s0.headD (.bad 0)) then
      (scanNumber s0).map fun r => (.num, r)
    else scanLiteral s0
/-- Parses `"key" : value` pairs separated by commas up to the closing brace. -/
def parseMembers : Nat → GoString → Option (List (GoString × JValue) × GoString)
  | 0, _ => none
  | f + 1, s =>
    let s0 := skipSpace s
    if headIs 34 s0 then
      match scanString s0.tail with
      | none => none
      | some (k, s1) =>
        let s2 := skipSpace s1
        if headIs 58 s2 then
          match parseValue f s2.tail with
          | none => none
          | some (v, s3) =>
            let s4 := skipSpace s3
            if headIs 44 s4 then (parseMembers f s4.tail).map fun p => ((k, v) :: p.1, p.2)
            else if headIs 125 s4 then some ([(k, v)], s4.tail)
            else none
        else none
    else none
/-- Parses values separated by commas up to the closing bracket. -/
def parseElements : Nat → GoString → Option (List JValue × GoString)
  | 0, _ => none
  | f + 1, s =>
    match parseValue f s with
    | none => none
    | some (v, s1) =>
      let s2 := skipSpace s1
      if headIs 44 s2 then (parseElements f s2.tail).map fun p => (v :: p.1, p.2)
      else if headIs 93 s2 then some ([v], s2.tail)
      else none
end

/-- The syntax check and parse of a whole document (`checkValid`): one value,
surrounded by optional whitespace and nothing else. -/
def parseJSON (data : GoString) : Option JValue :=
  match parseValue (2 * data.length + 1) data with
  | none => none
  | some (v, rest) => if skipSpace rest = [] then some v else none

/-! ## Go values used by `rpc.go` -/

/-- Go `error` values that flow through `rpc.go`. -/
inductive GoError where
  /-- `redis.ErrNil`: the reply of a blocking pop that timed out. -/
  | redisNil
  /-- Any other error value returned by a collaborator. -/
  | other (code : Nat)
  /-- `*json.SyntaxError`. -/
  | jsonSyntax
  /-- `*json.UnmarshalTypeError`. -/
  | jsonType
  deriving DecidableEq, Repr

/-- The entries of a non-nil `map[string]string`; a Go map has one entry per key. -/
abbrev Entries := List (GoString × GoString)

/-- A `map[string]string`; `none` is the nil map. -/
abbrev GoMap := Option Entries

/-- Entry of a map, if the key is present. -/
def GoMap.find? (m : GoMap) (k : GoString) : Option GoString :=
  match m with
  | none => none
  | some es => es.lookup k

/-- Keys of a Go map are distinct. -/
def GoMap.WF (m : GoMap) : Prop :=
  match m with
  | none => True
  | some es => (es.map Prod.fst).Nodup

instance GoMap.decidableWF (m : GoMap) : Decidable m.WF :=
  match m with
  | none => isTrue trivial
  | some es => inferInstanceAs (Decidable (es.map Prod.fst).Nodup)

/-- Equality of maps as `reflect.DeepEqual` sees it: both nil or both non-nil,
and the same value under every key. -/
def GoMap.DeepEqual (a b : GoMap) : Prop :=
  a.isSome = b.isSome ∧ ∀ k, a.find? k = b.find? k

/-- The assignment `m[k] = v` on the entries of a map. -/
def mapSet (k v : GoString) : Entries → Entries
  | [] => [(k, v)]
  | e :: es => if e.1 = k then (k, v) :: es else e :: mapSet k v es

/-- The envelope of `rpc.go`. -/
structure RpcMessage where
  Id : GoString
  Method : GoString
  Params : GoMap
  Result : GoString
  deriving DecidableEq, Repr

/-- Equality of envelopes field by field, with maps compared as Go compares them. -/
def RpcMessage.DeepEqual (a b : RpcMessage) : Prop :=
  a.Id = b.Id ∧ a.Method = b.Method ∧ GoMap.DeepEqual a.Params b.Params ∧ a.Result = b.Result

/-- Every key and value of the entries is valid UTF-8. -/
def validEntries (es : Entries) : Bool :=
  es.all fun e => validUTF8 e.1 && validUTF8 e.2

/-- Every string of the envelope is valid UTF-8. -/
def RpcMessage.validUTF8 (m : RpcMessage) : Bool :=
  Crawlab.validUTF8 m.Id && Crawlab.validUTF8 m.Method && Crawlab.validUTF8 m.Result &&
    validEntries (m.Params.getD [])

/-! ## `encoding/json`: `Marshal` -/

/-- UTF-8 encoding of one element of a string. -/
def utf8Bytes : GoChar → List Nat
  | .bad b => [b]
  | .rune c =>
    if c < 0x80 then [c]
    else if c < 0x800 then [0xC0 + c / 64, 0x80 + c % 64]
    else if c < 0x10000 then [0xE0 + c / 4096, 0x80 + c / 64 % 64, 0x80 + c % 64]
    else [0xF0 + c / 262144, 0x80 + c / 4096 % 64, 0x80 + c / 64 % 64, 0x80 + c % 64]

/-- The bytes of a Go string. -/
def bytes : GoString → List Nat
  | [] => []
  | x :: xs => utf8Bytes x ++ bytes xs

/-- Bytewise comparison of strings (`a <= b` on Go strings). -/
def bytesLE : List Nat → List Nat → Bool
  | [], _ => true
  | _ :: _, [] => false
  | a :: as, b :: bs => a < b || (a = b && bytesLE as bs)

/-- Map entries in the order in which the encoder writes them: sorted by key. -/
def sortEntries (es : Entries) : Entries :=
  es.insertionSort fun p q => bytesLE (bytes p.1) (bytes q.1) = true

/-- The members of an object for map entries; every member but the first is
preceded by a comma. -/
def encodeEntries : Bool → Entries → GoString
  | _, [] => []
  | first, e :: es =>
    (if first then [] else [.rune 44]) ++ encodeString e.1 ++ .rune 58 :: encodeString e.2 ++
      encodeEntries false es

/-- Encoding of a `map[string]string`: `null` for the nil map, otherwise an
object with the keys in sorted order. -/
def encodeMap : GoMap → GoString
  | none => lit "null"
  | some es => .rune 123 :: (encodeEntries true (sortEntries es) ++ [.rune 125])

/-- One field of a struct: its quoted name, a colon and the encoded value;
every field but the first is preceded by a comma. -/
def encodeField (first : Bool) (name value : GoString) : GoString :=
  (if first then [] else [.rune 44]) ++ encodeString name ++ .rune 58 :: value

/-- The call `json.Marshal` on an `RpcMessage`: the fields in declaration order under
their `json` tags. -/
def marshalRpcMessage (m : RpcMessage) : GoString :=
  .rune 123 :: (encodeField true (lit "id") (encodeString m.Id) ++
    encodeField false (lit "method") (encodeString m.Method) ++
    encodeField false (lit "params") (encodeMap m.Params) ++
    encodeField false (lit "result") (encodeString m.Result) ++ [.rune 125])

/-! ## `encoding/json`: `Unmarshal` -/

/-- The byte operation `c & 0xDF` on an ASCII character (clears the case bit). -/
def clearCase (c : Nat) : Nat := if c / 32 % 2 = 1 then c - 32 else c

/-- Case-insensitive match of one character of a field name against one
element of a key: ASCII letters match in either case, and the long s and the
Kelvin sign match `s` and `k`. -/
def foldEqChar (sb : Nat) : GoChar → Bool
  | .bad _ => false
  | .rune tb =>
    if tb < 128 then
      sb = tb || (65 ≤ clearCase sb && clearCase sb ≤ 90 && clearCase sb = clearCase tb)
    else ((sb = 115 || sb = 83) && tb = 0x17F) || ((sb = 107 || sb = 75) && tb = 0x212A)

/-- Case-insensitive match of a field name (ASCII) against an object key. -/
def foldEq : GoString → GoString → Bool
  | [], [] => true
  | .rune sb :: ns, t :: ts => foldEqChar sb t && foldEq ns ts
  | _, _ => false

/-- The struct field an object key selects: the field whose name equals the
key, otherwise the first field whose name matches it case-insensitively. -/
def findField (names : List GoString) (key : GoString) : Option Nat :=
  if names.indexOf key < names.length then some (names.indexOf key)
  else if (names.findIdx fun n => foldEq n key) < names.length then
    some (names.findIdx fun n => foldEq n key)
  else none

/-- The decoder keeps the first type error it meets and goes on (`saveError`). -/
def saveError (saved new : Option GoError) : Option GoError :=
  match saved with
  | some e => some e
  | none => new

/-- Decoding of a value into a `string`: a JSON string is stored, `null` leaves
the variable alone, anything else is a type error. -/
def assignString (v : JValue) (cur : GoString) : GoString × Option GoError :=
  match v with
  | .str s => (s, none)
  | .null => (cur, none)
  | _ => (cur, some .jsonType)

/-- Decoding of the members of an object into the entries of a map: every
member is decoded into a fresh string that is then stored under its key. -/
def assignEntries : List (GoString × JValue) → Entries → Entries × Option GoError
  | [], es => (es, none)
  | (k, v) :: kvs, es =>
    let r := assignString v []
    let t := assignEntries kvs (mapSet k r.1 es)
    (t.1, saveError r.2 t.2)

/-- Decoding of a value into a `map[string]string`: `null` sets the map to nil,
an object is stored entry by entry into the existing map (a new one if it is
nil), anything else is a type error. -/
def assignMap (v : JValue) (cur : GoMap) : GoMap × Option GoError :=
  match v with
  | .null => (none, none)
  | .obj kvs =>
    let r := assignEntries kvs (cur.getD [])
    (some r.1, r.2)
  | _ => (cur, some .jsonType)

/-- The `json` tags of `RpcMessage`, in field order. -/
def rpcFieldNames : List GoString := [lit "id", lit "method", lit "params", lit "result"]

/-- Decoding of one object member into the field of `RpcMessage` it selects;
members that select no field are skipped. -/
def assignRpcField (k : GoString) (v : JValue) (m : RpcMessage) : RpcMessage × Option GoError :=
  match findField rpcFieldNames k with
  | some 0 => let r := assignString v m.Id; ({ m with Id := r.1 }, r.2)
  | some 1 => let r := assignString v m.Method; ({ m with Method := r.1 }, r.2)
  | some 2 => let r := assignMap v m.Params; ({ m with Params := r.1 }, r.2)
  | some 3 => let r := assignString v m.Result; ({ m with Result := r.1 }, r.2)
  | _ => (m, none)

/-- Decoding of the members of an object into an `RpcMessage`, in order. -/
def assignRpcFields : List (GoString × JValue) → RpcMessage → RpcMessage × Option GoError
  | [], m => (m, none)
  | (k, v) :: kvs, m =>
    let r := assignRpcField k v m
    let t := assignRpcFields kvs r.1
    (t.1, saveError r.2 t.2)

/-- Decoding of a value into an `RpcMessage`. -/
def assignRpcMessage (v : JValue) (m : RpcMessage) : RpcMessage × Option GoError :=
  match v with
  | .null => (m, none)
  | .obj kvs => assignRpcFields kvs m
  | _ => (m, some .jsonType)

/-- The call `json.Unmarshal(data, &msg)`: the new contents of `msg` and the
returned error.  Invalid JSON leaves `msg` untouched. -/
def Unmarshal (data : GoString) (msg : RpcMessage) : RpcMessage × Option GoError :=
  match parseJSON data with
  | none => (msg, some .jsonSyntax)
  | some v => assignRpcMessage v msg

/-! ## The list of installed dependencies -/

/-- Modelled from the spec: `entity.Dependency`, which is declared outside
`rpc.go`; the spec describes it as a record of a name and a version that is
serialized into the `result` field as a list. -/
structure Dependency where
  Name : GoString
  Version : GoString
  deriving DecidableEq, Repr

/-- A `[]entity.Dependency`; `none` is the nil slice. -/
abbrev DepList := Option (List Dependency)

/-- Encoding of one dependency record. -/
def encodeDep (d : Dependency) : GoString :=
  .rune 123 :: (encodeField true (lit "name") (encodeString d.Name) ++
    encodeField false (lit "version") (encodeString d.Version) ++ [.rune 125])

/-- The elements of an array of records; every element but the first is
preceded by a comma. -/
def encodeDeps : Bool → List Dependency → GoString
  | _, [] => []
  | first, d :: ds => (if first then [] else [.rune 44]) ++ encodeDep d ++ encodeDeps false ds

/-- The call `json.Marshal` on a `[]entity.Dependency`: `null` for the nil slice,
otherwise an array. -/
def marshalDepList : DepList → GoString
  | none => lit "null"
  | some ds => .rune 91 :: (encodeDeps true ds ++ [.rune 93])

/-- The `json` tags of `Dependency`, in field order. -/
def depFieldNames : List GoString := [lit "name", lit "version"]

/-- Decoding of one object member into the field of `Dependency` it selects. -/
def assignDepField (k : GoString) (v : JValue) (d : Dependency) : Dependency × Option GoError :=
  match findField depFieldNames k with
  | some 0 => let r := assignString v d.Name; ({ d with Name := r.1 }, r.2)
  | some 1 => let r := assignString v d.Version; ({ d with Version := r.1 }, r.2)
  | _ => (d, none)

/-- Decoding of the members of an object into a `Dependency`, in order. -/
def assignDepFields : List (GoString × JValue) → Dependency → Dependency × Option GoError
  | [], d => (d, none)
  | (k, v) :: kvs, d =>
    let r := assignDepField k v d
    let t := assignDepFields kvs r.1
    (t.1, saveError r.2 t.2)

/-- Decoding of a value into a `Dependency`. -/
def assignDep (v : JValue) (d : Dependency) : Dependency × Option GoError :=
  match v with
  | .null => (d, none)
  | .obj kvs => assignDepFields kvs d
  | _ => (d, some .jsonType)

/-- Decoding of the elements of an array into new elements of a slice. -/
def assignDeps : List JValue → List Dependency × Option GoError
  | [] => ([], none)
  | v :: vs =>
    let r := assignDep v ⟨[], []⟩
    let t := assignDeps vs
    (r.1 :: t.1, saveError r.2 t.2)

/-- The call `json.Unmarshal([]byte(data), &list)` of
`RpcClientGetInstalledDepList`, where `list` is the nil slice: the new value of
`list` and the returned error. -/
def unmarshalDepList (data : GoString) : DepList × Option GoError :=
  match parseJSON data with
  | none => (none, some .jsonSyntax)
  | some .null => (none, none)
  | some (.arr vs) => let r := assignDeps vs; (some r.1, r.2)
  | some _ => (none, some .jsonType)

/-! ## The queue store -/

/-- A command sent to the queue store. -/
inductive RedisCmd where
  | lpush (key value : GoString)
  | brpop (key : GoString) (timeout : Nat)
  deriving DecidableEq, Repr

/-- Modelled from the spec: the shared queue store behind `database.RedisClient`,
which is declared outside `rpc.go`.  The spec describes named lists with
push-to-head and blocking pop-from-tail with a timeout in seconds, `0` meaning
wait indefinitely.  `lists` holds every list head first, `lpushErr` and
`brpopErr` make the respective command fail, and `log` records the commands
that were sent, oldest first. -/
structure Redis where
  lists : GoString → List GoString
  lpushErr : Option GoError
  brpopErr : Option GoError
  log : List RedisCmd

/-- Replaces the list stored under one key. -/
def Redis.setList (r : Redis) (key : GoString) (l : List GoString) : Redis :=
  { r with lists := fun k => if k = key then l else r.lists k }

/-- Modelled from the spec: `database.RedisClient.LPush`, a push to the head of
the named list, or the error of an unreachable store. -/
def LPush (key value : GoString) (r : Redis) : Redis × Option GoError :=
  let r1 := { r with log := r.log ++ [.lpush key value] }
  match r.lpushErr with
  | some e => (r1, some e)
  | none => (r1.setList key (value :: r.lists key), none)

/-- Outcome of a blocking pop. -/
inductive PopResult where
  | value (data : GoString)
  | error (e : GoError)
  /-- An unbounded wait on a list that stays empty never returns. -/
  | blocked
  deriving DecidableEq, Repr

/-- Modelled from the spec: `database.RedisClient.BRPop`, a blocking pop from
the tail of the named list.  On a list that is empty a bounded wait ends with
the nil reply (`redis.ErrNil`), an unbounded wait (timeout 0) does not return. -/
def BRPop (key : GoString) (timeout : Nat) (r : Redis) : Redis × PopResult :=
  let r1 := { r with log := r.log ++ [.brpop key timeout] }
  match r.brpopErr with
  | some e => (r1, .error e)
  | none =>
    match (r.lists key).getLast? with
    | some v => (r1.setList key (r.lists key).dropLast, .value v)
    | none => (r1, if timeout = 0 then .blocked else .error .redisNil)

/-! ## `rpc.go` -/

/-- Modelled from the spec: the method names of package `constants`. -/
def RpcInstallLang : GoString := lit "install_lang"

/-- Modelled from the spec: the method names of package `constants`. -/
def RpcInstallDep : GoString := lit "install_dep"

/-- Modelled from the spec: the method names of package `constants`. -/
def RpcUninstallDep : GoString := lit "uninstall_dep"

/-- Modelled from the spec: the method names of package `constants`. -/
def RpcGetInstalledDepList : GoString := lit "get_installed_dep_list"

/-- Modelled from the spec: the language names of package `constants`. -/
def Python : GoString := lit "python"

/-- Modelled from the spec: the language names of package `constants`. -/
def Nodejs : GoString := lit "nodejs"

/-- The installers that the handlers call.  They live in other files of
package `services`; each call has an output and an error. -/
structure Installers where
  InstallNodejsLocalLang : GoString × Option GoError
  InstallPythonLocalDep : GoString → GoString × Option GoError
  UninstallPythonLocalDep : GoString → GoString × Option GoError
  GetPythonLocalInstalledDepList : GoString → DepList × Option GoError
  GetNodejsLocalInstalledDepList : GoString → DepList × Option GoError

/-- The function `GetRpcParam`: `params[key]`, the empty string when the key is
absent. -/
def GetRpcParam (key : GoString) (params : GoMap) : GoString :=
  (params.find? key).getD []

/-- The handler `RpcServerInstallLang`: installs Node.js when `lang` is `nodejs`
and puts the output of the installer, whatever its error, into the result. -/
def RpcServerInstallLang (env : Installers) (msg : RpcMessage) : RpcMessage :=
  let lang := GetRpcParam (lit "lang") msg.Params
  if lang = Nodejs then { msg with Result := env.InstallNodejsLocalLang.1 } else msg

/-- The handler `RpcServerInstallDep`: installs the Python package `dep_name`
when `lang` is `python` and puts the output of the installer, whatever its
error, into the result. -/
def RpcServerInstallDep (env : Installers) (msg : RpcMessage) : RpcMessage :=
  let lang := GetRpcParam (lit "lang") msg.Params
  let depName := GetRpcParam (lit "dep_name") msg.Params
  if lang = Python then { msg with Result := (env.InstallPythonLocalDep depName).1 } else msg

/-- The handler `RpcServerUninstallDep`: uninstalls the Python package
`dep_name` when `lang` is `python` and puts the output, whatever the error,
into the result. -/
def RpcServerUninstallDep (env : Installers) (msg : RpcMessage) : RpcMessage :=
  let lang := GetRpcParam (lit "lang") msg.Params
  let depName := GetRpcParam (lit "dep_name") msg.Params
  if lang = Python then { msg with Result := (env.UninstallPythonLocalDep depName).1 } else msg

/-- The handler `RpcServerGetInstalledDepList`: for `python` and for `nodejs`
the result is the JSON encoding of the list of the collaborator, whatever its
error; for any other language the message is returned as it came. -/
def RpcServerGetInstalledDepList (env : Installers) (nodeId : GoString) (msg : RpcMessage) :
    RpcMessage :=
  let lang := GetRpcParam (lit "lang") msg.Params
  if lang = Python then
    { msg with Result := marshalDepList (env.GetPythonLocalInstalledDepList nodeId).1 }
  else if lang = Nodejs then
    { msg with Result := marshalDepList (env.GetNodejsLocalInstalledDepList nodeId).1 }
  else msg

/-- Modelled from the spec: `utils.BytesToString`, declared outside `rpc.go`,
which turns the encoder's bytes into the text payload unchanged. -/
def BytesToString (b : GoString) : GoString := b

/-- The function `ObjectToString`, at the one type it is used with; the error of
`json.Marshal` is dropped, and there is none for this type. -/
def ObjectToString (params : RpcMessage) : GoString := BytesToString (marshalRpcMessage params)

/-- The queue key `fmt.Sprintf("rpc:%s", nodeId)`. -/
def rpcKey (nodeId : GoString) : GoString := lit "rpc:" ++ nodeId

/-- The call `RpcClientFunc(nodeId, method, params, timeout)()`.  `id` is the string of
the fresh UUID.  `between` is what the other users of the queue store do to it
after the push has returned and before the pop takes an element.  The result
is `none` when the pop never returns. -/
def RpcClientFunc (id : GoString) (between : Redis → Redis) (nodeId method : GoString)
    (params : GoMap) (timeout : Nat) (r : Redis) : Option (Redis × GoString × Option GoError) :=
  let msg : RpcMessage := { Id := id, Method := method, Params := params, Result := [] }
  let msgStr := ObjectToString msg
  match LPush (rpcKey nodeId) msgStr r with
  | (r1, some err) => some (r1, [], some err)
  | (r1, none) =>
    match BRPop (rpcKey nodeId) timeout (between r1) with
    | (_, .blocked) => none
    | (r2, .error err) => some (r2, [], some err)
    | (r2, .value dataStr) =>
      match Unmarshal dataStr msg with
      | (_, some err) => some (r2, [], some err)
      | (msg1, none) => some (r2, msg1.Result, none)

/-- The wrapper `RpcClientInstallLang`, with the timeout of 600 seconds. -/
def RpcClientInstallLang (id : GoString) (between : Redis → Redis) (nodeId lang : GoString)
    (r : Redis) : Option (Redis × GoString × Option GoError) :=
  let params : GoMap := some (mapSet (lit "lang") lang [])
  match RpcClientFunc id between nodeId RpcInstallLang params 600 r with
  | none => none
  | some (r1, _, some err) => some (r1, [], some err)
  | some (r1, data, none) => some (r1, data, none)

/-- The wrapper `RpcClientInstallDep`, with the timeout of 10 seconds. -/
def RpcClientInstallDep (id : GoString) (between : Redis → Redis) (nodeId lang depName : GoString)
    (r : Redis) : Option (Redis × GoString × Option GoError) :=
  let params : GoMap := some (mapSet (lit "dep_name") depName (mapSet (lit "lang") lang []))
  match RpcClientFunc id between nodeId RpcInstallDep params 10 r with
  | none => none
  | some (r1, _, some err) => some (r1, [], some err)
  | some (r1, data, none) => some (r1, data, none)

/-- The wrapper `RpcClientUninstallDep`, with the timeout of 60 seconds. -/
def RpcClientUninstallDep (id : GoString) (between : Redis → Redis)
    (nodeId lang depName : GoString) (r : Redis) :
    Option (Redis × GoString × Option GoError) :=
  let params : GoMap := some (mapSet (lit "dep_name") depName (mapSet (lit "lang") lang []))
  match RpcClientFunc id between nodeId RpcUninstallDep params 60 r with
  | none => none
  | some (r1, _, some err) => some (r1, [], some err)
  | some (r1, data, none) => some (r1, data, none)

/-- The wrapper `RpcClientGetInstalledDepList`, with the timeout of 10 seconds:
the result of the call is decoded into the list, and a decoding error is
returned with the list as far as it was decoded. -/
def RpcClientGetInstalledDepList (id : GoString) (between : Redis → Redis)
    (nodeId lang : GoString) (r : Redis) : Option (Redis × DepList × Option GoError) :=
  let params : GoMap := some (mapSet (lit "lang") lang [])
  match RpcClientFunc id between nodeId RpcGetInstalledDepList params 10 r with
  | none => none
  | some (r1, _, some err) => some (r1, none, some err)
  | some (r1, data, none) =>
    match unmarshalDepList data with
    | (list, some err) => some (r1, list, some err)
    | (list, none) => some (r1, list, none)

/-- The state of a node process that runs the RPC service. -/
structure World where
  redis : Redis
  /-- Outcome of `model.GetCurrentNode()`, as the hex string of the node id. -/
  currentNode : Except GoError GoString
  /-- The package variable `IsRpcStopped`. -/
  IsRpcStopped : Bool
  /-- The handlers that have been invoked, oldest first, each with its argument. -/
  handled : List RpcMessage

/-- The function `StopRpcService`: sets the stop flag. -/
def StopRpcService (w : World) : World := { w with IsRpcStopped := true }

/-- The two states of the server loop. -/
inductive LoopState where
  | Running
  | Stopped
  deriving DecidableEq, Repr

/-- The method dispatch of the server loop; `none` for a method without handler. -/
def dispatch (env : Installers) (nodeId : GoString) (msg : RpcMessage) : Option RpcMessage :=
  if msg.Method = RpcInstallDep then some (RpcServerInstallDep env msg)
  else if msg.Method = RpcUninstallDep then some (RpcServerUninstallDep env msg)
  else if msg.Method = RpcInstallLang then some (RpcServerInstallLang env msg)
  else if msg.Method = RpcGetInstalledDepList then
    some (RpcServerGetInstalledDepList env nodeId msg)
  else none

/-- The empty envelope `var msg RpcMessage`. -/
def zeroMsg : RpcMessage := { Id := [], Method := [], Params := none, Result := [] }

/-- One iteration of the loop of `InitRpcService`: the state after it and
whether the loop goes on (`continue` or the end of the body) or returns.  The
result is `none` when the unbounded pop never returns. -/
def serverIteration (env : Installers) (w : World) : Option (World × LoopState) :=
  match w.currentNode with
  | .error _ => some (w, .Running)
  | .ok nodeId =>
    match BRPop (rpcKey nodeId) 0 w.redis with
    | (_, .blocked) => none
    | (r1, .error _) => some ({ w with redis := r1 }, .Running)
    | (r1, .value dataStr) =>
      match Unmarshal dataStr zeroMsg with
      | (_, some _) => some ({ w with redis := r1 }, .Running)
      | (msg, none) =>
        match dispatch env nodeId msg with
        | none => some ({ w with redis := r1 }, .Running)
        | some replyMsg =>
          match LPush (rpcKey nodeId) (ObjectToString replyMsg) r1 with
          | (r2, some _) =>
            some ({ w with redis := r2, handled := w.handled ++ [msg] }, .Running)
          | (r2, none) =>
            some ({ w with redis := r2, handled := w.handled ++ [msg] },
              if w.IsRpcStopped then .Stopped else .Running)

/-- The loop of `InitRpcService`, for at most `n` iterations, from the state
`Running`.  It ends when an iteration returns or blocks. -/
def InitRpcService (env : Installers) : Nat → World → World × LoopState
  | 0, w => (w, .Running)
  | n + 1, w =>
    match serverIteration env w with
    | none => (w, .Running)
    | some (w1, .Stopped) => (w1, .Stopped)
    | some (w1, .Running) => InitRpcService env n w1

/-! ## What the decoder reads back from the encoder -/

/-- The object members the parser reads back from encoded map entries. -/
def jsonEntries (es : Entries) : List (GoString × JValue) :=
  es.map fun e => (coerce e.1, JValue.str (coerce e.2))

/-- The value the parser reads back from an encoded map. -/
def jsonOfMap : GoMap → JValue
  | none => .null
  | some es => .obj (jsonEntries (sortEntries es))

/-- The value the parser reads back from an encoded envelope. -/
def jsonOfRpcMessage (m : RpcMessage) : JValue :=
  .obj [(lit "id", .str (coerce m.Id)), (lit "method", .str (coerce m.Method)),
    (lit "params", jsonOfMap m.Params), (lit "result", .str (coerce m.Result))]

/-- The entries of a map after the encoded entries have been stored into it
one after the other. -/
def storeEntries : Entries → Entries → Entries
  | [], base => base
  | e :: es, base => storeEntries es (mapSet (coerce e.1) (coerce e.2) base)

/-- The `Params` field after an encoded map has been decoded into it. -/
def decodedParams (p cur : GoMap) : GoMap :=
  match p with
  | none => none
  | some es => some (storeEntries (sortEntries es) (cur.getD []))

/-- Map entries with keys and values coerced to valid UTF-8. -/
def coerceEntries (es : Entries) : Entries := es.map fun e => (coerce e.1, coerce e.2)

/-- The value the parser reads back from an encoded dependency record. -/
def jsonOfDep (d : Dependency) : JValue :=
  .obj [(lit "name", .str (coerce d.Name)), (lit "version", .str (coerce d.Version))]

/-- A dependency record with its strings coerced to valid UTF-8. -/
def coerceDep (d : Dependency) : Dependency := ⟨coerce d.Name, coerce d.Version⟩

/-- A dependency list with its strings coerced to valid UTF-8. -/
def coerceDepList (l : DepList) : DepList := l.map fun ds => ds.map coerceDep

/-- Every string of the list is valid UTF-8. -/
def validDepList (l : DepList) : Bool :=
  (l.getD []).all fun d => validUTF8 d.Name && validUTF8 d.Version

/-! ## The queue store: what the two commands do -/

/-- The store after a successful pop: the command is logged and the list
loses its tail. -/
def afterPop (r : Redis) (key : GoString) (timeout : Nat) (q : List GoString) : Redis :=
  ({ r with log := r.log ++ [RedisCmd.brpop key timeout] }).setList key q

/-- The store after a successful push: the command is logged and the value is
the new head of the list. -/
def afterPush (r : Redis) (key value : GoString) : Redis :=
  ({ r with log := r.log ++ [RedisCmd.lpush key value] }).setList key (value :: r.lists key)

/-! ## A call against a live server loop -/

/-- What one iteration of the server loop of the node process `w` does to the
queue store. -/
def serverStep (env : Installers) (w : World) (r : Redis) : Redis :=
  match serverIteration env { w with redis := r } with
  | some (w1, _) => w1.redis
  | none => r

/-- The request of a client as the server reads it from the queue. -/
def decodedRequest (id method : GoString) (params : GoMap) : RpcMessage :=
  { Id := coerce id, Method := coerce method, Params := decodedParams params none, Result := [] }

/-! ## The handlers -/

/-- The four method names that have a handler. -/
def registered : List GoString :=
  [RpcInstallLang, RpcInstallDep, RpcUninstallDep, RpcGetInstalledDepList]

/-- The outputs of the installers are valid UTF-8. -/
def Installers.validOutputs (env : Installers) : Prop :=
  validUTF8 env.InstallNodejsLocalLang.1 = true ∧
    (∀ d, validUTF8 (env.InstallPythonLocalDep d).1 = true) ∧
    (∀ d, validUTF8 (env.UninstallPythonLocalDep d).1 = true)

/-! ## Inputs of the scenarios -/

/-- The request of the install-dependency scenario: `lang=python`,
`dep_name=requests`. -/
def sampleParams : GoMap := some [(lit "lang", lit "python"), (lit "dep_name", lit "requests")]

/-- An envelope whose strings are all valid UTF-8. -/
def sampleMsg : RpcMessage :=
  { Id := lit "7c9e6679", Method := RpcInstallDep, Params := sampleParams, Result := lit "a:b" }

/-- An envelope with an empty, non-nil parameter map. -/
def emptyParamsMsg : RpcMessage :=
  { Id := lit "1", Method := RpcInstallDep, Params := some [], Result := lit "done" }

/-- An envelope whose id holds the byte `0xFF`, which is not valid UTF-8. -/
def badIdMsg : RpcMessage := { Id := [.bad 255], Method := [], Params := none, Result := [] }

/-- A queue store with empty lists and no fault. -/
def emptyRedis : Redis := { lists := fun _ => [], lpushErr := none, brpopErr := none, log := [] }

/-- The hex id of a node. -/
def sampleNode : GoString := lit "5d429e6c19f7abede924fee2"

/-- A node process whose loop is running against the empty queue store. -/
def sampleWorld : World :=
  { redis := emptyRedis, currentNode := .ok sampleNode, IsRpcStopped := false, handled := [] }

/-- Installers of the install-dependency scenario: installing `requests`
prints `Successfully installed requests`. -/
def scenarioInstallers : Installers :=
  { InstallNodejsLocalLang := ([], none)
    InstallPythonLocalDep := fun d =>
      if d = lit "requests" then (lit "Successfully installed requests", none)
      else ([], some (.other 1))
    UninstallPythonLocalDep := fun _ => ([], none)
    GetPythonLocalInstalledDepList := fun _ => (none, some (.other 2))
    GetNodejsLocalInstalledDepList := fun _ => (some [], none) }

/-- Installers whose dependency installer prints the byte `0xFF`, which is not
valid UTF-8. -/
def garbledInstallers : Installers :=
  { scenarioInstallers with InstallPythonLocalDep := fun _ => ([.bad 255], none) }

/-- A queue store that refuses pushes. -/
def pushDownRedis : Redis := { emptyRedis with lpushErr := some (.other 7) }

/-- A queue store that refuses pops. -/
def popDownRedis : Redis := { emptyRedis with brpopErr := some (.other 7) }

/-- A request for a method that has no handler. -/
def pingMsg : RpcMessage := { Id := lit "1", Method := lit "ping", Params := none, Result := [] }

/-- A node process with the request `pingMsg` waiting on its queue. -/
def pingWorld : World :=
  { sampleWorld with redis := emptyRedis.setList (rpcKey sampleNode) [ObjectToString pingMsg] }

/-- A node process with the stop flag set and the request of the
install-dependency scenario waiting on its queue. -/
def stoppingWorld : World :=
  { redis := emptyRedis.setList (rpcKey sampleNode) [ObjectToString sampleMsg]
    currentNode := .ok sampleNode
    IsRpcStopped := true
    handled := [] }

/-- The node process `stoppingWorld` against a queue store that refuses pushes. -/
def stoppingPushDownWorld : World :=
  { stoppingWorld with redis := { stoppingWorld.redis with lpushErr := some (.other 7) } }

/-- A node process with a payload that is not JSON waiting on its queue. -/
def garbageWorld : World :=
  { sampleWorld with redis := emptyRedis.setList (rpcKey sampleNode) [lit "not json"] }

/-- The list that the local installed-dependency collaborator returns for a
language that has one. -/
def localInstalledDepList (env : Installers) (nodeId lang : GoString) : DepList :=
  if lang = Python then (env.GetPythonLocalInstalledDepList nodeId).1
  else (env.GetNodejsLocalInstalledDepList nodeId).1

/-- Installers whose list for `nodejs` holds a name with the byte `0xFF`,
which is not valid UTF-8. -/
def garbledListInstallers : Installers :=
  { scenarioInstallers with
    GetNodejsLocalInstalledDepList := fun _ => (some [⟨[.bad 255], lit "1.0"⟩], none) }

/-! ## The parser: input is consumed and the fuel is enough -/

theorem skipSpace_length (s : GoString) : (skipSpace s).length ≤ s.length := by
  induction s with
  | nil => simp [skipSpace]
  | cons x xs ih =>
    simp only [skipSpace]
    split_ifs
    · simp only [List.length_cons]; omega
    · exact Nat.le_refl _

theorem tail_length_of_headIs (c : Nat) (s : GoString) (h : headIs c s = true) :
    s.tail.length + 1 = s.length := by
  cases s with
  | nil => simp [headIs] at h
  | cons x xs => simp

theorem scanFrom_length (s : GoString) :
    ∀ (k : Nat) (x rest : GoString), scanFrom k s = some (x, rest) →
      rest.length + k < s.length := by
  induction s with
  | nil => intro k x rest h; simp [scanFrom] at h
  | cons y ys ih =>
    intro k x rest h
    cases k with
    | succ k =>
      simp only [scanFrom] at h
      have := ih k x rest h
      simp only [List.length_cons]; omega
    | zero =>
      simp only [scanFrom] at h
      split at h
      · simp at h
      · simp only [Option.some.injEq, Prod.mk.injEq] at h
        rw [← h.2]; simp
      · rename_i z n _
        cases hr : scanFrom (n - 1) ys with
        | none => simp [hr] at h
        | some pr =>
          obtain ⟨a, b⟩ := pr
          simp only [hr, Option.map_some', pushChar, Option.some.injEq, Prod.mk.injEq] at h
          have := ih (n - 1) a b hr
          rw [← h.2]
          simp only [List.length_cons]; omega

theorem scanString_length (s x rest : GoString) (h : scanString s = some (x, rest)) :
    rest.length < s.length := by
  have := scanFrom_length s 0 x rest h
  omega

theorem dropDigits_length (s : GoString) :
    (dropDigits s).2.length ≤ s.length ∧
      ((dropDigits s).1 = true → (dropDigits s).2.length < s.length) := by
  induction s with
  | nil => simp [dropDigits]
  | cons x xs ih =>
    simp only [dropDigits]
    split_ifs
    · simp only [List.length_cons]
      exact ⟨by omega, fun _ => by omega⟩
    · simp

theorem scanExponent_length (s r : GoString) (h : scanExponent s = some r) :
    r.length ≤ s.length := by
  simp only [scanExponent] at h
  split_ifs at h with h1 h2 h3
  · simp only [Option.some.injEq] at h
    have := (dropDigits_length s.tail.tail).1
    rw [← h]
    simp only [List.length_tail] at this ⊢
    omega
  · simp only [Option.some.injEq] at h
    have := (dropDigits_length s.tail).1
    rw [← h]
    simp only [List.length_tail] at this ⊢
    omega
  · simp only [Option.some.injEq] at h
    rw [← h]

theorem scanFraction_length (s r : GoString) (h : scanFraction s = some r) :
    r.length ≤ s.length := by
  simp only [scanFraction] at h
  split_ifs at h with h1 h2
  · have h3 := scanExponent_length _ _ h
    have := (dropDigits_length s.tail).1
    simp only [List.length_tail] at this
    omega
  · exact scanExponent_length _ _ h

theorem scanNumber_length (s r : GoString) (h : scanNumber s = some r) :
    r.length < s.length := by
  simp only [scanNumber] at h
  split_ifs at h with h1 h2 h3 h4 h5
  · have := scanFraction_length _ _ h
    have t1 := tail_length_of_headIs _ _ h1
    have t2 := tail_length_of_headIs _ _ h2
    omega
  · have := scanFraction_length _ _ h
    have t1 := tail_length_of_headIs _ _ h1
    have := (dropDigits_length s.tail).2 h3
    omega
  · have := scanFraction_length _ _ h
    have t2 := tail_length_of_headIs _ _ h4
    omega
  · have := scanFraction_length _ _ h
    have := (dropDigits_length s).2 h5
    omega

theorem scanLiteral_length (s : GoString) (v : JValue) (r : GoString)
    (h : scanLiteral s = some (v, r)) : r.length < s.length := by
  simp only [scanLiteral] at h
  split_ifs at h with h1 h2 h3
  · have hl : (s.take 4).length = 4 := by rw [h1]; decide
    simp only [Option.some.injEq, Prod.mk.injEq] at h
    rw [← h.2]
    simp only [List.length_take, List.length_drop] at hl ⊢
    omega
  · have hl : (s.take 5).length = 5 := by rw [h2]; decide
    simp only [Option.some.injEq, Prod.mk.injEq] at h
    rw [← h.2]
    simp only [List.length_take, List.length_drop] at hl ⊢
    omega
  · have hl : (s.take 4).length = 4 := by rw [h3]; decide
    simp only [Option.some.injEq, Prod.mk.injEq] at h
    rw [← h.2]
    simp only [List.length_take, List.length_drop] at hl ⊢
    omega

theorem parse_consumes (f : Nat) :
    (∀ s v rest, parseValue f s = some (v, rest) → rest.length < s.length) ∧
    (∀ s kvs rest, parseMembers f s = some (kvs, rest) → rest.length < s.length) ∧
    (∀ s vs rest, parseElements f s = some (vs, rest) → rest.length < s.length) := by
  induction f with
  | zero =>
    refine ⟨?_, ?_, ?_⟩ <;> intro s v rest h
    · simp [parseValue] at h
    · simp [parseMembers] at h
    · simp [parseElements] at h
  | succ f ih =>
    obtain ⟨ihV, ihM, ihE⟩ := ih
    refine ⟨?_, ?_, ?_⟩
    · intro s v rest h
      have hs := skipSpace_length s
      simp only [parseValue] at h
      split_ifs at h with h1 h2 h3 h4 h5 h6
      · obtain ⟨a, ha, hb⟩ := Option.map_eq_some'.mp h
        have := scanString_length _ _ _ (show scanString _ = some (a.1, a.2) from ha)
        have t := tail_length_of_headIs _ _ h1
        simp only [Prod.mk.injEq] at hb
        rw [← hb.2]; omega
      · simp only [Option.some.injEq, Prod.mk.injEq] at h
        have t := tail_length_of_headIs _ _ h2
        have t2 := tail_length_of_headIs _ _ h3
        have := skipSpace_length (skipSpace s).tail
        rw [← h.2]; omega
      · obtain ⟨a, ha, hb⟩ := Option.map_eq_some'.mp h
        have := ihM _ _ _ (show parseMembers f _ = some (a.1, a.2) from ha)
        have t := tail_length_of_headIs _ _ h2
        have := skipSpace_length (skipSpace s).tail
        simp only [Prod.mk.injEq] at hb
        rw [← hb.2]; omega
      · simp only [Option.some.injEq, Prod.mk.injEq] at h
        have t := tail_length_of_headIs _ _ h4
        have t2 := tail_length_of_headIs _ _ h5
        have := skipSpace_length (skipSpace s).tail
        rw [← h.2]; omega
      · obtain ⟨a, ha, hb⟩ := Option.map_eq_some'.mp h
        have := ihE _ _ _ (show parseElements f _ = some (a.1, a.2) from ha)
        have t := tail_length_of_headIs _ _ h4
        have := skipSpace_length (skipSpace s).tail
        simp only [Prod.mk.injEq] at hb
        rw [← hb.2]; omega
      · obtain ⟨a, ha, hb⟩ := Option.map_eq_some'.mp h
        have := scanNumber_length _ _ ha
        simp only [Prod.mk.injEq] at hb
        rw [← hb.2]; omega
      · have := scanLiteral_length _ _ _ h
        omega
    · intro s kvs rest h
      have hs := skipSpace_length s
      simp only [parseMembers] at h
      split_ifs at h with h1
      have t1 := tail_length_of_headIs _ _ h1
      cases hk : scanString (skipSpace s).tail with
      | none => simp [hk] at h
      | some pk =>
        obtain ⟨k, s1⟩ := pk
        have l1 := scanString_length _ _ _ hk
        have l2 := skipSpace_length s1
        simp only [hk] at h
        split_ifs at h with h2
        have t2 := tail_length_of_headIs _ _ h2
        cases hv : parseValue f (skipSpace s1).tail with
        | none => simp [hv] at h
        | some pv =>
          obtain ⟨v, s3⟩ := pv
          have l3 := ihV _ _ _ hv
          have l4 := skipSpace_length s3
          simp only [hv] at h
          split_ifs at h with h3 h4
          · obtain ⟨a, ha, hb⟩ := Option.map_eq_some'.mp h
            have := ihM _ _ _ (show parseMembers f _ = some (a.1, a.2) from ha)
            have t3 := tail_length_of_headIs _ _ h3
            simp only [Prod.mk.injEq] at hb
            rw [← hb.2]; omega
          · simp only [Option.some.injEq, Prod.mk.injEq] at h
            have t4 := tail_length_of_headIs _ _ h4
            rw [← h.2]; omega
    · intro s vs rest h
      simp only [parseElements] at h
      cases hv : parseValue f s with
      | none => simp [hv] at h
      | some pv =>
        obtain ⟨v, s1⟩ := pv
        have l1 := ihV _ _ _ hv
        have l2 := skipSpace_length s1
        simp only [hv] at h
        split_ifs at h with h3 h4
        · obtain ⟨a, ha, hb⟩ := Option.map_eq_some'.mp h
          have := ihE _ _ _ (show parseElements f _ = some (a.1, a.2) from ha)
          have t3 := tail_length_of_headIs _ _ h3
          simp only [Prod.mk.injEq] at hb
          rw [← hb.2]; omega
        · simp only [Option.some.injEq, Prod.mk.injEq] at h
          have t4 := tail_length_of_headIs _ _ h4
          rw [← h.2]; omega

theorem parse_fuel_stable (f : Nat) :
    (∀ s : GoString, 2 * s.length < f → ∀ g, f ≤ g → parseValue g s = parseValue f s) ∧
    (∀ s : GoString, 2 * s.length + 1 < f → ∀ g, f ≤ g →
      parseMembers g s = parseMembers f s) ∧
    (∀ s : GoString, 2 * s.length + 1 < f → ∀ g, f ≤ g →
      parseElements g s = parseElements f s) := by
  induction f with
  | zero =>
    refine ⟨?_, ?_, ?_⟩ <;> intro s hs <;> exact absurd hs (Nat.not_lt_zero _)
  | succ f ih =>
    obtain ⟨ihV, ihM, ihE⟩ := ih
    refine ⟨?_, ?_, ?_⟩
    · intro s hs g hg
      obtain ⟨g1, rfl⟩ : ∃ g1, g = g1 + 1 := ⟨g - 1, by omega⟩
      have hg1 : f ≤ g1 := by omega
      have l0 := skipSpace_length s
      have l1 := skipSpace_length (skipSpace s).tail
      have hM : headIs 123 (skipSpace s) = true →
          parseMembers g1 (skipSpace (skipSpace s).tail) =
            parseMembers f (skipSpace (skipSpace s).tail) := fun h =>
        ihM _ (by have := tail_length_of_headIs _ _ h; omega) g1 hg1
      have hE : headIs 91 (skipSpace s) = true →
          parseElements g1 (skipSpace (skipSpace s).tail) =
            parseElements f (skipSpace (skipSpace s).tail) := fun h =>
        ihE _ (by have := tail_length_of_headIs _ _ h; omega) g1 hg1
      simp only [parseValue]
      split_ifs with h1 h2 h3 h4 h5 h6
      · rfl
      · rfl
      · rw [hM h2]
      · rfl
      · rw [hE h4]
      · rfl
      · rfl
    · intro s hs g hg
      obtain ⟨g1, rfl⟩ : ∃ g1, g = g1 + 1 := ⟨g - 1, by omega⟩
      have hg1 : f ≤ g1 := by omega
      have l0 := skipSpace_length s
      simp only [parseMembers]
      by_cases h1 : headIs 34 (skipSpace s) = true
      · have t1 := tail_length_of_headIs _ _ h1
        simp only [h1, if_true]
        cases hk : scanString (skipSpace s).tail with
        | none => rfl
        | some pk =>
          obtain ⟨k, s1⟩ := pk
          have l1 := scanString_length _ _ _ hk
          have l2 := skipSpace_length s1
          simp only []
          by_cases h2 : headIs 58 (skipSpace s1) = true
          · have t2 := tail_length_of_headIs _ _ h2
            simp only [h2, if_true]
            rw [ihV (skipSpace s1).tail (by omega) g1 hg1]
            cases hv : parseValue f (skipSpace s1).tail with
            | none => rfl
            | some pv =>
              obtain ⟨v, s3⟩ := pv
              have l3 := (parse_consumes f).1 _ _ _ hv
              have l4 := skipSpace_length s3
              simp only []
              by_cases h3 : headIs 44 (skipSpace s3) = true
              · have t3 := tail_length_of_headIs _ _ h3
                simp only [h3, if_true]
                rw [ihM (skipSpace s3).tail (by omega) g1 hg1]
              · simp only [h3, Bool.false_eq_true, if_false]
          · simp only [h2, Bool.false_eq_true, if_false]
      · simp only [h1, Bool.false_eq_true, if_false]
    · intro s hs g hg
      obtain ⟨g1, rfl⟩ : ∃ g1, g = g1 + 1 := ⟨g - 1, by omega⟩
      have hg1 : f ≤ g1 := by omega
      simp only [parseElements]
      rw [ihV s (by omega) g1 hg1]
      cases hv : parseValue f s with
      | none => rfl
      | some pv =>
        obtain ⟨v, s1⟩ := pv
        have l3 := (parse_consumes f).1 _ _ _ hv
        have l4 := skipSpace_length s1
        simp only []
        by_cases h3 : headIs 44 (skipSpace s1) = true
        · have t3 := tail_length_of_headIs _ _ h3
          simp only [h3, if_true]
          rw [ihE (skipSpace s1).tail (by omega) g1 hg1]
        · simp only [h3, Bool.false_eq_true, if_false]

/-- The fuel that `parseJSON` passes is always enough: more fuel never changes
the outcome of parsing. -/
theorem parseValue_fuel (s : GoString) (g : Nat) (hg : 2 * s.length + 1 ≤ g) :
    parseValue g s = parseValue (2 * s.length + 1) s :=
  (parse_fuel_stable (2 * s.length + 1)).1 s (Nat.lt_succ_self _) g hg

/-! ## Unquoting what the encoder writes -/

theorem getu4_low (c : Nat) (h : c < 64) :
    getu4 (.rune 48) (.rune 48) (hexDigit (c / 16)) (hexDigit (c % 16)) = some c := by
  revert c; decide

theorem scanFrom_skip (pre tail : GoString) :
    scanFrom pre.length (pre ++ tail) = scanFrom 0 tail := by
  induction pre with
  | nil => rfl
  | cons x xs ih => simpa [scanFrom] using ih

theorem scanFrom_emit (pre tail : GoString) (x : GoChar) (hpre : pre ≠ [])
    (h : scanStep (pre ++ tail) = .emit x pre.length) :
    scanFrom 0 (pre ++ tail) = (scanFrom 0 tail).map (pushChar x) := by
  cases pre with
  | nil => exact absurd rfl hpre
  | cons y ys =>
    have h2 : scanStep (y :: (ys ++ tail)) = .emit x (ys.length + 1) := by simpa using h
    show scanFrom 0 (y :: (ys ++ tail)) = _
    simp only [scanFrom, h2, Nat.add_sub_cancel]
    rw [scanFrom_skip]

theorem encodeChar_ne_nil (x : GoChar) : encodeChar x ≠ [] := by
  cases x with
  | bad b => simp [encodeChar]
  | rune c => simp only [encodeChar]; split_ifs <;> simp

theorem scanStep_encodeChar (x : GoChar) (tail : GoString) :
    scanStep (encodeChar x ++ tail) = .emit (coerceChar x) (encodeChar x).length := by
  cases x with
  | bad b => simp [encodeChar, scanStep, scanEscape, scanU, getu4, hexVal, isSurrogate, coerceChar]
  | rune c =>
    simp only [encodeChar, coerceChar]
    split_ifs with h1 h2 h3 h4 h5 h6
    · rcases h1 with h | h <;> subst h <;> simp [scanStep, scanEscape, simpleEscape]
    · subst h2; simp [scanStep, scanEscape, simpleEscape]
    · subst h3; simp [scanStep, scanEscape, simpleEscape]
    · subst h4; simp [scanStep, scanEscape, simpleEscape]
    · have hc : c < 64 := by omega
      simp [scanStep, scanEscape, scanU, getu4_low c hc, isSurrogate]
      omega
    · rcases h6 with h | h <;> subst h <;>
        simp [scanStep, scanEscape, scanU, getu4, hexVal, hexDigit, isSurrogate]
    · have : ¬ c < 32 := by omega
      have h34 : c ≠ 34 := by omega
      have h92 : c ≠ 92 := by omega
      simp [scanStep, *]

theorem scanString_encodeChars (s rest : GoString) :
    scanString (encodeChars s ++ .rune 34 :: rest) = some (coerce s, rest) := by
  unfold scanString
  induction s with
  | nil => simp [encodeChars, scanFrom, scanStep, coerce]
  | cons x xs ih =>
    simp only [encodeChars, List.append_assoc]
    rw [scanFrom_emit _ _ (coerceChar x) (encodeChar_ne_nil x) (scanStep_encodeChar x _), ih]
    simp [pushChar, coerce]

theorem coerce_valid (s : GoString) (h : validUTF8 s = true) : coerce s = s := by
  induction s with
  | nil => rfl
  | cons x xs ih =>
    simp only [validUTF8, List.all_cons, Bool.and_eq_true] at h
    cases x with
    | bad b => simp [GoChar.isRune] at h
    | rune c => simp [coerce, coerceChar] at ih ⊢; exact ih (by simpa [validUTF8] using h.2)

/-! ## Parsing what the encoder writes -/

theorem skipSpace_encodeString (s rest : GoString) :
    skipSpace (encodeString s ++ rest) = encodeString s ++ rest := by
  simp [encodeString, skipSpace, isSpace]

theorem parseValue_encodeString (f : Nat) (s rest : GoString) :
    parseValue (f + 1) (encodeString s ++ rest) = some (.str (coerce s), rest) := by
  have h := scanString_encodeChars s rest
  simp only [parseValue, skipSpace_encodeString]
  simp [encodeString, headIs, h]

theorem parseMembers_comma (f : Nat) (k V R : GoString) (v : JValue)
    (hV : ∀ rest, parseValue f (V ++ rest) = some (v, rest)) :
    parseMembers (f + 1) (encodeString k ++ .rune 58 :: (V ++ .rune 44 :: R)) =
      (parseMembers f R).map fun p => ((coerce k, v) :: p.1, p.2) := by
  have h := scanString_encodeChars k (.rune 58 :: (V ++ .rune 44 :: R))
  simp only [parseMembers, skipSpace_encodeString]
  simp [encodeString, headIs, h, skipSpace, isSpace, hV]

theorem parseMembers_close (f : Nat) (k V R : GoString) (v : JValue)
    (hV : ∀ rest, parseValue f (V ++ rest) = some (v, rest)) :
    parseMembers (f + 1) (encodeString k ++ .rune 58 :: (V ++ .rune 125 :: R)) =
      some ([(coerce k, v)], R) := by
  have h := scanString_encodeChars k (.rune 58 :: (V ++ .rune 125 :: R))
  simp only [parseMembers, skipSpace_encodeString]
  simp [encodeString, headIs, h, skipSpace, isSpace, hV]

theorem lit_null : lit "null" = [.rune 110, .rune 117, .rune 108, .rune 108] := by decide

theorem lit_true : lit "true" = [.rune 116, .rune 114, .rune 117, .rune 101] := by decide

theorem lit_false :
    lit "false" = [.rune 102, .rune 97, .rune 108, .rune 115, .rune 101] := by decide

theorem parseMembers_entries (es : Entries) :
    ∀ (e : GoString × GoString) (f : Nat) (rest : GoString), es.length + 2 ≤ f →
      parseMembers f (encodeEntries true (e :: es) ++ .rune 125 :: rest) =
        some (jsonEntries (e :: es), rest) := by
  induction es with
  | nil =>
    intro e f rest hf
    obtain ⟨g, rfl⟩ : ∃ g, f = g + 2 := ⟨f - 2, by omega⟩
    have := parseMembers_close (g + 1) e.1 (encodeString e.2) rest _
      (parseValue_encodeString g e.2)
    simpa [encodeEntries, jsonEntries] using this
  | cons e2 es ih =>
    intro e f rest hf
    obtain ⟨g, rfl⟩ : ∃ g, f = g + 2 := ⟨f - 2, by omega⟩
    have h1 := parseMembers_comma (g + 1) e.1 (encodeString e.2)
      (encodeEntries true (e2 :: es) ++ .rune 125 :: rest) _ (parseValue_encodeString g e.2)
    have h2 := ih e2 (g + 1) rest (by simp at hf ⊢; omega)
    rw [h2] at h1
    simpa [encodeEntries, jsonEntries] using h1

theorem parseValue_encodeMap (m : GoMap) (f : Nat) (rest : GoString)
    (hf : (m.getD []).length + 2 ≤ f) :
    parseValue f (encodeMap m ++ rest) = some (jsonOfMap m, rest) := by
  obtain ⟨g, rfl⟩ : ∃ g, f = g + 1 := ⟨f - 1, by omega⟩
  cases m with
  | none =>
    simp [encodeMap, lit_null, lit_true, lit_false, parseValue, skipSpace, isSpace, headIs,
      isDigit, scanLiteral, jsonOfMap]
  | some es =>
    have hlen : (sortEntries es).length = es.length := List.length_insertionSort _ _
    simp only [encodeMap, jsonOfMap]
    cases hs : sortEntries es with
    | nil =>
      simp [parseValue, skipSpace, isSpace, headIs, encodeEntries, jsonEntries]
    | cons e es2 =>
      have h := parseMembers_entries es2 e g rest (by
        rw [hs] at hlen; simp at hlen hf; omega)
      simp only [List.cons_append, List.append_assoc, List.singleton_append, parseValue]
      simp [skipSpace, isSpace, headIs, h, encodeEntries, encodeString]
      simp [encodeEntries, encodeString] at h
      simp [h]

theorem coerce_lit_id : coerce (lit "id") = lit "id" := by decide

theorem coerce_lit_method : coerce (lit "method") = lit "method" := by decide

theorem coerce_lit_params : coerce (lit "params") = lit "params" := by decide

theorem coerce_lit_result : coerce (lit "result") = lit "result" := by decide

theorem parseValue_marshalRpcMessage (m : RpcMessage) (f : Nat) (rest : GoString)
    (hf : (m.Params.getD []).length + 6 ≤ f) :
    parseValue f (marshalRpcMessage m ++ rest) = some (jsonOfRpcMessage m, rest) := by
  obtain ⟨g, rfl⟩ : ∃ g, f = g + 5 := ⟨f - 5, by omega⟩
  have h4 := parseMembers_close g (lit "result") (encodeString m.Result) rest _
    (by
      obtain ⟨g1, rfl⟩ : ∃ g1, g = g1 + 1 := ⟨g - 1, by omega⟩
      exact parseValue_encodeString g1 m.Result)
  have h3 := parseMembers_comma (g + 1) (lit "params") (encodeMap m.Params)
    (encodeString (lit "result") ++ .rune 58 :: (encodeString m.Result ++ .rune 125 :: rest)) _
    (fun r => parseValue_encodeMap m.Params (g + 1) r (by omega))
  rw [h4] at h3
  have h2 := parseMembers_comma (g + 2) (lit "method") (encodeString m.Method)
    (encodeString (lit "params") ++ .rune 58 :: (encodeMap m.Params ++ .rune 44 ::
      (encodeString (lit "result") ++ .rune 58 :: (encodeString m.Result ++ .rune 125 :: rest))))
    _ (parseValue_encodeString (g + 1) m.Method)
  rw [h3] at h2
  have h1 := parseMembers_comma (g + 3) (lit "id") (encodeString m.Id)
    (encodeString (lit "method") ++ .rune 58 :: (encodeString m.Method ++ .rune 44 ::
      (encodeString (lit "params") ++ .rune 58 :: (encodeMap m.Params ++ .rune 44 ::
      (encodeString (lit "result") ++ .rune 58 :: (encodeString m.Result ++ .rune 125 :: rest))))))
    _ (parseValue_encodeString (g + 2) m.Id)
  rw [h2] at h1
  simp only [Option.map_some', coerce_lit_id, coerce_lit_method, coerce_lit_params,
    coerce_lit_result] at h1
  have hs := skipSpace_encodeString (lit "id")
    (.rune 58 :: (encodeString m.Id ++ .rune 44 ::
      (encodeString (lit "method") ++ .rune 58 :: (encodeString m.Method ++ .rune 44 ::
      (encodeString (lit "params") ++ .rune 58 :: (encodeMap m.Params ++ .rune 44 ::
      (encodeString (lit "result") ++ .rune 58 ::
        (encodeString m.Result ++ .rune 125 :: rest))))))))
  have hq : headIs 125 (encodeString (lit "id") ++
    (.rune 58 :: (encodeString m.Id ++ .rune 44 ::
      (encodeString (lit "method") ++ .rune 58 :: (encodeString m.Method ++ .rune 44 ::
      (encodeString (lit "params") ++ .rune 58 :: (encodeMap m.Params ++ .rune 44 ::
      (encodeString (lit "result") ++ .rune 58 ::
        (encodeString m.Result ++ .rune 125 :: rest))))))))) = false := by
    simp [encodeString, headIs]
  simp only [marshalRpcMessage, encodeField, parseValue, List.cons_append, List.append_assoc,
    List.nil_append, List.singleton_append, if_true, if_false, Bool.false_eq_true]
  simp only [skipSpace, isSpace, headIs, List.tail_cons, hs, hq, jsonOfRpcMessage]
  simp [encodeString] at h1 ⊢
  exact h1

theorem length_encodeEntries (es : Entries) (first : Bool) :
    es.length ≤ (encodeEntries first es).length := by
  induction es generalizing first with
  | nil => simp [encodeEntries]
  | cons e es ih =>
    have := ih false
    simp only [encodeEntries, encodeString, List.length_append, List.length_cons]
    omega

theorem length_encodeMap (m : GoMap) : (m.getD []).length ≤ (encodeMap m).length := by
  cases m with
  | none => simp
  | some es =>
    have h1 := length_encodeEntries (sortEntries es) true
    have h2 : (sortEntries es).length = es.length := List.length_insertionSort _ _
    simp only [encodeMap, Option.getD_some, List.length_cons, List.length_append]
    omega

theorem length_marshalRpcMessage (m : RpcMessage) :
    (m.Params.getD []).length + 6 ≤ (marshalRpcMessage m).length + 1 := by
  have := length_encodeMap m.Params
  simp only [marshalRpcMessage, encodeField, encodeString, List.length_append, List.length_cons]
  omega

theorem skipSpace_nil : skipSpace [] = [] := rfl

theorem parseJSON_marshalRpcMessage (m : RpcMessage) :
    parseJSON (marshalRpcMessage m) = some (jsonOfRpcMessage m) := by
  have h := parseValue_marshalRpcMessage m (2 * (marshalRpcMessage m).length + 1) []
    (by have := length_marshalRpcMessage m; omega)
  rw [List.append_nil] at h
  simp [parseJSON, h, skipSpace_nil]

theorem assignEntries_jsonEntries (es base : Entries) :
    assignEntries (jsonEntries es) base = (storeEntries es base, none) := by
  induction es generalizing base with
  | nil => rfl
  | cons e es ih =>
    have := ih (mapSet (coerce e.1) (coerce e.2) base)
    simp only [jsonEntries] at this
    simp [jsonEntries, assignEntries, assignString, storeEntries, this, saveError]

theorem assignMap_jsonOfMap (p cur : GoMap) :
    assignMap (jsonOfMap p) cur = (decodedParams p cur, none) := by
  cases p with
  | none => rfl
  | some es => simp [jsonOfMap, assignMap, decodedParams, assignEntries_jsonEntries]

theorem findField_id : findField rpcFieldNames (lit "id") = some 0 := by decide

theorem findField_method : findField rpcFieldNames (lit "method") = some 1 := by decide

theorem findField_params : findField rpcFieldNames (lit "params") = some 2 := by decide

theorem findField_result : findField rpcFieldNames (lit "result") = some 3 := by decide

/-- Decoding what `json.Marshal` wrote for `m` into the variable `t` never
fails; strings come back coerced to valid UTF-8. -/
theorem Unmarshal_marshal (m t : RpcMessage) :
    Unmarshal (marshalRpcMessage m) t =
      (⟨coerce m.Id, coerce m.Method, decodedParams m.Params t.Params, coerce m.Result⟩, none) := by
  simp [Unmarshal, parseJSON_marshalRpcMessage, jsonOfRpcMessage, assignRpcMessage,
    assignRpcFields, assignRpcField, findField_id, findField_method, findField_params,
    findField_result, assignString, assignMap_jsonOfMap, saveError]

/-! ## Maps read back from their encoding -/

theorem lookup_cons_ite (x k v : GoString) (es : Entries) :
    List.lookup x ((k, v) :: es) = if x = k then some v else es.lookup x := by
  by_cases h : x = k
  · subst h; simp [List.lookup]
  · have hb : (x == k) = false := beq_eq_false_iff_ne.mpr h
    simp [List.lookup, hb, h]

theorem lookup_mapSet (k v x : GoString) (es : Entries) :
    (mapSet k v es).lookup x = if x = k then some v else es.lookup x := by
  induction es with
  | nil => simp [mapSet, lookup_cons_ite]
  | cons e es ih =>
    obtain ⟨k1, v1⟩ := e
    by_cases h1 : k1 = k
    · subst h1
      by_cases h : x = k1 <;> simp [mapSet, lookup_cons_ite, h]
    · by_cases h : x = k1
      · subst h
        have : ¬ x = k := h1
        simp [mapSet, lookup_cons_ite, h1, this]
      · simp [mapSet, lookup_cons_ite, h1, h, ih]

theorem lookup_eq_none_of_not_mem (es : Entries) (x : GoString)
    (h : x ∉ es.map Prod.fst) : es.lookup x = none := by
  induction es with
  | nil => rfl
  | cons e es ih =>
    obtain ⟨k1, v1⟩ := e
    simp only [List.map_cons, List.mem_cons, not_or] at h
    simp [lookup_cons_ite, h.1, ih h.2]

theorem coerceEntries_valid (es : Entries) (h : validEntries es = true) :
    coerceEntries es = es := by
  induction es with
  | nil => rfl
  | cons e es ih =>
    simp only [validEntries, List.all_cons, Bool.and_eq_true] at h
    have h2 := ih (by simpa [validEntries] using h.2)
    simp only [coerceEntries] at h2
    simp [coerceEntries, coerce_valid _ h.1.1, coerce_valid _ h.1.2, h2]

theorem lookup_storeEntries (es : Entries) :
    ∀ (base : Entries) (x : GoString), ((coerceEntries es).map Prod.fst).Nodup →
      (storeEntries es base).lookup x =
        match (coerceEntries es).lookup x with
        | some v => some v
        | none => base.lookup x := by
  induction es with
  | nil => intro base x _; rfl
  | cons e es ih =>
    intro base x hnd
    obtain ⟨k1, v1⟩ := e
    simp only [coerceEntries, List.map_cons, List.nodup_cons] at hnd
    have hnd2 : ((coerceEntries es).map Prod.fst).Nodup := by simpa [coerceEntries] using hnd.2
    have hno : coerce k1 ∉ (coerceEntries es).map Prod.fst := by simpa [coerceEntries] using hnd.1
    simp only [storeEntries]
    rw [ih _ x hnd2, lookup_mapSet]
    have hc : coerceEntries ((k1, v1) :: es) = (coerce k1, coerce v1) :: coerceEntries es := rfl
    rw [hc, lookup_cons_ite]
    by_cases h : x = coerce k1
    · subst h
      simp [lookup_eq_none_of_not_mem _ _ hno]
    · simp [h]

theorem lookup_eq_some_iff_mem (es : Entries) (hnd : (es.map Prod.fst).Nodup)
    (x v : GoString) : es.lookup x = some v ↔ (x, v) ∈ es := by
  induction es with
  | nil => simp
  | cons e es ih =>
    obtain ⟨k1, v1⟩ := e
    simp only [List.map_cons, List.nodup_cons] at hnd
    by_cases h : x = k1
    · subst h
      have hno : ∀ w, (x, w) ∉ es := fun w hw =>
        hnd.1 (List.mem_map.mpr ⟨(x, w), hw, rfl⟩)
      simp [lookup_cons_ite, hno v, eq_comm]
    · simp [lookup_cons_ite, h, ih hnd.2]

theorem lookup_perm (l1 l2 : Entries) (hp : l1.Perm l2) (hnd : (l2.map Prod.fst).Nodup)
    (x : GoString) : l1.lookup x = l2.lookup x := by
  have hnd1 : (l1.map Prod.fst).Nodup := (hp.map Prod.fst).nodup_iff.mpr hnd
  apply Option.ext
  intro v
  simp only [Option.mem_def]
  rw [lookup_eq_some_iff_mem l1 hnd1, lookup_eq_some_iff_mem l2 hnd, hp.mem_iff]

theorem sortEntries_perm (es : Entries) : (sortEntries es).Perm es :=
  List.perm_insertionSort _ es

theorem validEntries_sort (es : Entries) (h : validEntries es = true) :
    validEntries (sortEntries es) = true := by
  simp only [validEntries, List.all_eq_true] at h ⊢
  intro e he
  exact h e ((sortEntries_perm es).mem_iff.mp he)

theorem lookup_decoded (es base : Entries) (hnd : ((coerceEntries es).map Prod.fst).Nodup)
    (x : GoString) :
    (storeEntries (sortEntries es) base).lookup x =
      match (coerceEntries es).lookup x with
      | some v => some v
      | none => base.lookup x := by
  have hp : (coerceEntries (sortEntries es)).Perm (coerceEntries es) :=
    (sortEntries_perm es).map _
  have hnd1 : ((coerceEntries (sortEntries es)).map Prod.fst).Nodup :=
    (hp.map Prod.fst).nodup_iff.mpr hnd
  rw [lookup_storeEntries _ base x hnd1, lookup_perm _ _ hp hnd]

theorem mem_keys_mapSet (k v x : GoString) (es : Entries) :
    x ∈ (mapSet k v es).map Prod.fst ↔ x = k ∨ x ∈ es.map Prod.fst := by
  induction es with
  | nil => simp [mapSet]
  | cons e es ih =>
    by_cases h : e.1 = k
    · simp only [mapSet, h, if_true, List.map_cons, List.mem_cons]
      constructor
      · rintro (h1 | h1)
        · exact Or.inl h1
        · exact Or.inr (Or.inr h1)
      · rintro (h1 | h1 | h1)
        · exact Or.inl h1
        · exact Or.inl h1
        · exact Or.inr h1
    · simp only [mapSet, h, if_false, List.map_cons, List.mem_cons, ih]
      constructor
      · rintro (h1 | h1 | h1)
        · exact Or.inr (Or.inl h1)
        · exact Or.inl h1
        · exact Or.inr (Or.inr h1)
      · rintro (h1 | h1 | h1)
        · exact Or.inr (Or.inl h1)
        · exact Or.inl h1
        · exact Or.inr (Or.inr h1)

theorem nodup_keys_mapSet (k v : GoString) (es : Entries) (h : (es.map Prod.fst).Nodup) :
    ((mapSet k v es).map Prod.fst).Nodup := by
  induction es with
  | nil => simp [mapSet]
  | cons e es ih =>
    simp only [List.map_cons, List.nodup_cons] at h
    by_cases hk : e.1 = k
    · simp only [mapSet, hk, if_true, List.map_cons, List.nodup_cons]
      exact ⟨hk ▸ h.1, h.2⟩
    · simp only [mapSet, hk, if_false, List.map_cons, List.nodup_cons, mem_keys_mapSet]
      refine ⟨fun hc => ?_, ih h.2⟩
      rcases hc with h0 | h0
      · first
          | exact hk h0
          | exact h0.elim
      · exact h.1 h0

theorem nodup_keys_storeEntries (es base : Entries) (h : (base.map Prod.fst).Nodup) :
    ((storeEntries es base).map Prod.fst).Nodup := by
  induction es generalizing base with
  | nil => exact h
  | cons e es ih => exact ih _ (nodup_keys_mapSet _ _ _ h)

/-- The map that the decoder builds has one entry per key. -/
theorem decodedParams_WF (p cur : GoMap) (h : cur.WF) : (decodedParams p cur).WF := by
  cases p with
  | none => trivial
  | some es =>
    cases cur with
    | none => exact nodup_keys_storeEntries _ [] List.nodup_nil
    | some cs => exact nodup_keys_storeEntries _ cs h

/-- A valid map decoded into a variable that holds no key the map lacks is the
same map. -/
theorem decodedParams_deepEqual (p cur : GoMap) (hv : validEntries (p.getD []) = true)
    (hwf : p.WF) (hcur : ∀ k, p.find? k = none → cur.find? k = none) :
    GoMap.DeepEqual (decodedParams p cur) p := by
  cases p with
  | none => exact ⟨rfl, fun _ => rfl⟩
  | some es =>
    refine ⟨rfl, fun k => ?_⟩
    have hc := coerceEntries_valid es hv
    have h := lookup_decoded es (cur.getD []) (by rw [hc]; exact hwf) k
    rw [hc] at h
    simp only [decodedParams, GoMap.find?, h]
    cases hl : es.lookup k with
    | some v => rfl
    | none =>
      have h2 := hcur k (by simpa [GoMap.find?] using hl)
      cases cur with
      | none => rfl
      | some cs => simpa [GoMap.find?] using h2

/-- What a handler reads from the decoded parameters of a request. -/
theorem GetRpcParam_decoded (es : Entries) (cur : GoMap) (k : GoString)
    (hnd : ((coerceEntries es).map Prod.fst).Nodup) (hcur : cur = none) :
    GetRpcParam k (decodedParams (some es) cur) = GetRpcParam k (some (coerceEntries es)) := by
  subst hcur
  have h := lookup_decoded es [] hnd k
  simp only [GetRpcParam, decodedParams, GoMap.find?, Option.getD_none, h]
  cases (coerceEntries es).lookup k <;> rfl

/-! ## Dependency lists read back from their encoding -/

theorem coerce_lit_name : coerce (lit "name") = lit "name" := by decide

theorem coerce_lit_lang : coerce (lit "lang") = lit "lang" := by decide

theorem coerce_lit_version : coerce (lit "version") = lit "version" := by decide

theorem parseValue_encodeDep (d : Dependency) (f : Nat) (rest : GoString) (hf : 4 ≤ f) :
    parseValue f (encodeDep d ++ rest) = some (jsonOfDep d, rest) := by
  obtain ⟨g, rfl⟩ : ∃ g, f = g + 4 := ⟨f - 4, by omega⟩
  have h2 := parseMembers_close (g + 1) (lit "version") (encodeString d.Version) rest _
    (parseValue_encodeString g d.Version)
  have h1 := parseMembers_comma (g + 2) (lit "name") (encodeString d.Name)
    (encodeString (lit "version") ++ .rune 58 :: (encodeString d.Version ++ .rune 125 :: rest))
    _ (parseValue_encodeString (g + 1) d.Name)
  rw [h2] at h1
  simp only [Option.map_some', coerce_lit_name, coerce_lit_version] at h1
  have hs := skipSpace_encodeString (lit "name")
    (.rune 58 :: (encodeString d.Name ++ .rune 44 ::
      (encodeString (lit "version") ++ .rune 58 ::
        (encodeString d.Version ++ .rune 125 :: rest))))
  have hq : headIs 125 (encodeString (lit "name") ++
    (.rune 58 :: (encodeString d.Name ++ .rune 44 ::
      (encodeString (lit "version") ++ .rune 58 ::
        (encodeString d.Version ++ .rune 125 :: rest))))) = false := by
    simp [encodeString, headIs]
  simp only [encodeDep, encodeField, parseValue, List.cons_append, List.append_assoc,
    List.nil_append, List.singleton_append, if_true, if_false, Bool.false_eq_true]
  simp only [skipSpace, isSpace, headIs, List.tail_cons, hs, hq, jsonOfDep]
  simp [encodeString] at h1 ⊢
  exact h1

theorem skipSpace_comma (s : GoString) : skipSpace (.rune 44 :: s) = .rune 44 :: s := by
  simp [skipSpace, isSpace]

theorem skipSpace_bracket (s : GoString) : skipSpace (.rune 93 :: s) = .rune 93 :: s := by
  simp [skipSpace, isSpace]

theorem parseElements_deps (ds : List Dependency) :
    ∀ (d : Dependency) (f : Nat) (rest : GoString), ds.length + 5 ≤ f →
      parseElements f (encodeDeps true (d :: ds) ++ .rune 93 :: rest) =
        some ((d :: ds).map jsonOfDep, rest) := by
  induction ds with
  | nil =>
    intro d f rest hf
    obtain ⟨g, rfl⟩ : ∃ g, f = g + 1 := ⟨f - 1, by omega⟩
    have h := parseValue_encodeDep d g (.rune 93 :: rest) (by simp at hf; omega)
    simp only [encodeDeps, List.nil_append, List.append_nil, if_true, parseElements, h,
      skipSpace_bracket]
    simp [headIs]
  | cons d2 ds ih =>
    intro d f rest hf
    obtain ⟨g, rfl⟩ : ∃ g, f = g + 1 := ⟨f - 1, by omega⟩
    have h := parseValue_encodeDep d g
      (.rune 44 :: (encodeDeps true (d2 :: ds) ++ .rune 93 :: rest)) (by simp at hf; omega)
    have h2 := ih d2 g rest (by simp at hf ⊢; omega)
    have he : encodeDeps true (d :: d2 :: ds) ++ .rune 93 :: rest =
        encodeDep d ++ .rune 44 :: (encodeDeps true (d2 :: ds) ++ .rune 93 :: rest) := by
      simp [encodeDeps]
    rw [he]
    simp only [parseElements, h, skipSpace_comma]
    simp [headIs, h2]

theorem length_encodeDeps (ds : List Dependency) (first : Bool) :
    5 * ds.length ≤ (encodeDeps first ds).length := by
  induction ds generalizing first with
  | nil => simp [encodeDeps]
  | cons d ds ih =>
    have := ih false
    simp only [encodeDeps, encodeDep, encodeField, encodeString, List.length_append,
      List.length_cons]
    omega

theorem parseValue_array (f : Nat) (t : GoString) :
    parseValue (f + 1) (.rune 91 :: .rune 123 :: t) =
      (parseElements f (.rune 123 :: t)).map fun p => (JValue.arr p.1, p.2) := by
  simp [parseValue, skipSpace, isSpace, headIs]

theorem parseJSON_marshalDepList (l : DepList) :
    parseJSON (marshalDepList l) =
      some (match l with
        | none => .null
        | some ds => .arr (ds.map jsonOfDep)) := by
  cases l with
  | none =>
    simp [marshalDepList, lit_null, lit_true, lit_false, parseJSON, parseValue, skipSpace,
      isSpace, headIs, isDigit, scanLiteral]
  | some ds =>
    cases ds with
    | nil =>
      simp [marshalDepList, encodeDeps, parseJSON, parseValue, skipSpace, isSpace, headIs]
    | cons d ds =>
      have hl := length_encodeDeps (d :: ds) true
      have h := parseElements_deps ds d (2 * (marshalDepList (some (d :: ds))).length) [] (by
        simp only [marshalDepList, List.length_cons, List.length_append] at hl ⊢
        omega)
      obtain ⟨t, ht⟩ : ∃ t, encodeDeps true (d :: ds) ++ [GoChar.rune 93] = .rune 123 :: t :=
        ⟨_, by simp only [encodeDeps, encodeDep, if_true, List.nil_append, List.cons_append]; rfl⟩
      simp only [marshalDepList] at h
      simp only [parseJSON, marshalDepList]
      rw [ht] at h ⊢
      rw [parseValue_array, h]
      simp [skipSpace_nil]

theorem findField_name : findField depFieldNames (lit "name") = some 0 := by decide

theorem findField_version : findField depFieldNames (lit "version") = some 1 := by decide

theorem assignDeps_jsonOfDep (ds : List Dependency) :
    assignDeps (ds.map jsonOfDep) = (ds.map coerceDep, none) := by
  induction ds with
  | nil => rfl
  | cons d ds ih =>
    simp [assignDeps, ih, jsonOfDep, assignDep, assignDepFields, assignDepField, findField_name,
      findField_version, assignString, saveError, coerceDep]

/-- Decoding what `json.Marshal` wrote for a dependency list never fails;
strings come back coerced to valid UTF-8. -/
theorem unmarshalDepList_marshal (l : DepList) :
    unmarshalDepList (marshalDepList l) = (coerceDepList l, none) := by
  cases l with
  | none => simp [unmarshalDepList, parseJSON_marshalDepList, coerceDepList]
  | some ds =>
    simp [unmarshalDepList, parseJSON_marshalDepList, coerceDepList, assignDeps_jsonOfDep]

theorem coerceDepList_valid (l : DepList) (h : validDepList l = true) : coerceDepList l = l := by
  cases l with
  | none => rfl
  | some ds =>
    simp only [validDepList, Option.getD_some] at h
    simp only [coerceDepList, Option.map_some', Option.some.injEq]
    induction ds with
    | nil => rfl
    | cons d ds ih =>
      simp only [List.all_cons, Bool.and_eq_true] at h
      simp [coerceDep, coerce_valid _ h.1.1, coerce_valid _ h.1.2, ih h.2]

/-! ## The encoder writes valid UTF-8 -/

theorem validUTF8_append (a b : GoString) :
    validUTF8 (a ++ b) = (validUTF8 a && validUTF8 b) := by
  simp [validUTF8, List.all_append]

theorem validUTF8_cons (c : Nat) (s : GoString) : validUTF8 (.rune c :: s) = validUTF8 s := by
  simp [validUTF8, GoChar.isRune]

theorem validUTF8_lit (s : String) : validUTF8 (lit s) = true := by
  simp [validUTF8, lit, GoChar.isRune]

theorem validUTF8_encodeChar (x : GoChar) : validUTF8 (encodeChar x) = true := by
  cases x with
  | bad b => simp [encodeChar, validUTF8, GoChar.isRune]
  | rune c =>
    simp only [encodeChar]
    split_ifs <;> simp [validUTF8, GoChar.isRune, hexDigit]

theorem validUTF8_nil : validUTF8 [] = true := rfl

theorem validUTF8_encodeString (s : GoString) : validUTF8 (encodeString s) = true := by
  have h : validUTF8 (encodeChars s) = true := by
    induction s with
    | nil => rfl
    | cons x xs ih => simp [encodeChars, validUTF8_append, validUTF8_encodeChar, ih]
  simp [encodeString, validUTF8_cons, validUTF8_append, h, validUTF8_nil]

theorem validUTF8_encodeDeps (ds : List Dependency) (first : Bool) :
    validUTF8 (encodeDeps first ds) = true := by
  induction ds generalizing first with
  | nil => rfl
  | cons d ds ih =>
    cases first <;>
      simp [encodeDeps, encodeDep, encodeField, validUTF8_append, validUTF8_cons,
        validUTF8_encodeString, ih, validUTF8_nil]

/-- The encoder writes valid UTF-8 whatever the strings of the list are. -/
theorem validUTF8_marshalDepList (l : DepList) : validUTF8 (marshalDepList l) = true := by
  cases l with
  | none => exact validUTF8_lit _
  | some ds =>
    simp [marshalDepList, validUTF8_cons, validUTF8_append, validUTF8_encodeDeps, validUTF8_nil]

/-! ## The queue store: what the two commands do -/

theorem BRPop_value (r : Redis) (key : GoString) (timeout : Nat) (q : List GoString)
    (p : GoString) (herr : r.brpopErr = none) (hq : r.lists key = q ++ [p]) :
    BRPop key timeout r = (afterPop r key timeout q, .value p) := by
  simp [BRPop, herr, hq, afterPop]

theorem BRPop_empty (r : Redis) (key : GoString) (timeout : Nat)
    (herr : r.brpopErr = none) (hq : r.lists key = []) :
    BRPop key timeout r =
      ({ r with log := r.log ++ [RedisCmd.brpop key timeout] },
        if timeout = 0 then .blocked else .error .redisNil) := by
  simp [BRPop, herr, hq]

theorem BRPop_error (r : Redis) (key : GoString) (timeout : Nat) (e : GoError)
    (herr : r.brpopErr = some e) :
    BRPop key timeout r = ({ r with log := r.log ++ [RedisCmd.brpop key timeout] }, .error e) := by
  simp [BRPop, herr]

theorem LPush_ok (r : Redis) (key value : GoString) (herr : r.lpushErr = none) :
    LPush key value r = (afterPush r key value, none) := by
  simp [LPush, herr, afterPush]

theorem LPush_error (r : Redis) (key value : GoString) (e : GoError)
    (herr : r.lpushErr = some e) :
    LPush key value r = ({ r with log := r.log ++ [RedisCmd.lpush key value] }, some e) := by
  simp [LPush, herr]

theorem afterPop_lists (r : Redis) (key : GoString) (timeout : Nat) (q : List GoString)
    (k : GoString) : (afterPop r key timeout q).lists k = if k = key then q else r.lists k := rfl

theorem afterPush_lists (r : Redis) (key value k : GoString) :
    (afterPush r key value).lists k = if k = key then value :: r.lists key else r.lists k := rfl

/-! ## One iteration of the server loop, case by case -/

theorem serverIteration_malformed (env : Installers) (w : World) (nodeId : GoString)
    (q : List GoString) (p : GoString) (e : GoError)
    (hn : w.currentNode = .ok nodeId) (herr : w.redis.brpopErr = none)
    (hq : w.redis.lists (rpcKey nodeId) = q ++ [p]) (hd : (Unmarshal p zeroMsg).2 = some e) :
    serverIteration env w =
      some ({ w with redis := afterPop w.redis (rpcKey nodeId) 0 q }, .Running) := by
  have hu : Unmarshal p zeroMsg = ((Unmarshal p zeroMsg).1, some e) := by rw [← hd]
  simp only [serverIteration, hn, BRPop_value _ _ _ q p herr hq]
  rw [hu]

theorem serverIteration_unknown (env : Installers) (w : World) (nodeId : GoString)
    (q : List GoString) (p : GoString) (m : RpcMessage)
    (hn : w.currentNode = .ok nodeId) (herr : w.redis.brpopErr = none)
    (hq : w.redis.lists (rpcKey nodeId) = q ++ [p]) (hd : Unmarshal p zeroMsg = (m, none))
    (hm : dispatch env nodeId m = none) :
    serverIteration env w =
      some ({ w with redis := afterPop w.redis (rpcKey nodeId) 0 q }, .Running) := by
  simp only [serverIteration, hn, BRPop_value _ _ _ q p herr hq, hd, hm]

theorem serverIteration_reply (env : Installers) (w : World) (nodeId : GoString)
    (q : List GoString) (p : GoString) (m reply : RpcMessage)
    (hn : w.currentNode = .ok nodeId) (herr : w.redis.brpopErr = none)
    (hq : w.redis.lists (rpcKey nodeId) = q ++ [p]) (hd : Unmarshal p zeroMsg = (m, none))
    (hm : dispatch env nodeId m = some reply) (hpush : w.redis.lpushErr = none) :
    serverIteration env w =
      some ({ w with
          redis := afterPush (afterPop w.redis (rpcKey nodeId) 0 q) (rpcKey nodeId)
            (ObjectToString reply),
          handled := w.handled ++ [m] },
        if w.IsRpcStopped then .Stopped else .Running) := by
  have hp : (afterPop w.redis (rpcKey nodeId) 0 q).lpushErr = none := hpush
  simp only [serverIteration, hn, BRPop_value _ _ _ q p herr hq, hd, hm, LPush_ok _ _ _ hp]

theorem serverIteration_pushFailed (env : Installers) (w : World) (nodeId : GoString)
    (q : List GoString) (p : GoString) (m reply : RpcMessage) (e : GoError)
    (hn : w.currentNode = .ok nodeId) (herr : w.redis.brpopErr = none)
    (hq : w.redis.lists (rpcKey nodeId) = q ++ [p]) (hd : Unmarshal p zeroMsg = (m, none))
    (hm : dispatch env nodeId m = some reply) (hpush : w.redis.lpushErr = some e) :
    serverIteration env w =
      some ({ w with
          redis := { afterPop w.redis (rpcKey nodeId) 0 q with
            log := (afterPop w.redis (rpcKey nodeId) 0 q).log ++
              [RedisCmd.lpush (rpcKey nodeId) (ObjectToString reply)] },
          handled := w.handled ++ [m] }, .Running) := by
  have hp : (afterPop w.redis (rpcKey nodeId) 0 q).lpushErr = some e := hpush
  simp only [serverIteration, hn, BRPop_value _ _ _ q p herr hq, hd, hm, LPush_error _ _ _ e hp]

/-! ## A call against a live server loop -/

theorem Unmarshal_request (id method : GoString) (params : GoMap) :
    Unmarshal (ObjectToString ⟨id, method, params, []⟩) zeroMsg =
      (decodedRequest id method params, none) := by
  simp [ObjectToString, BytesToString, Unmarshal_marshal, decodedRequest, zeroMsg, coerce]

theorem call_served (env : Installers) (w : World) (id nodeId method : GoString)
    (params : GoMap) (timeout : Nat) (r : Redis) (reply : RpcMessage)
    (hn : w.currentNode = .ok nodeId) (hq : r.lists (rpcKey nodeId) = [])
    (hpush : r.lpushErr = none) (hpop : r.brpopErr = none)
    (hd : dispatch env nodeId (decodedRequest id method params) = some reply) :
    ∃ r1, RpcClientFunc id (serverStep env w) nodeId method params timeout r =
        some (r1, coerce reply.Result, none) ∧ r1.lists (rpcKey nodeId) = [] := by
  have h1 : (afterPush r (rpcKey nodeId) (ObjectToString ⟨id, method, params, []⟩)).lists
      (rpcKey nodeId) = [] ++ [ObjectToString ⟨id, method, params, []⟩] := by
    simp [afterPush_lists, hq]
  have h2 := serverIteration_reply env
    { w with redis := afterPush r (rpcKey nodeId) (ObjectToString ⟨id, method, params, []⟩) }
    nodeId [] _ _ reply hn hpop h1 (Unmarshal_request id method params) hd hpush
  have h3 : (afterPush (afterPop (afterPush r (rpcKey nodeId)
      (ObjectToString ⟨id, method, params, []⟩)) (rpcKey nodeId) 0 []) (rpcKey nodeId)
      (ObjectToString reply)).lists (rpcKey nodeId) = [] ++ [ObjectToString reply] := by
    simp [afterPush_lists, afterPop_lists]
  have h4 := BRPop_value _ (rpcKey nodeId) timeout [] (ObjectToString reply) (by exact hpop) h3
  refine ⟨afterPop (afterPush (afterPop (afterPush r (rpcKey nodeId)
      (ObjectToString ⟨id, method, params, []⟩)) (rpcKey nodeId) 0 []) (rpcKey nodeId)
      (ObjectToString reply)) (rpcKey nodeId) timeout [], ?_, ?_⟩
  · simp only [RpcClientFunc, LPush_ok _ _ _ hpush, serverStep, h2, h4]
    simp only [ObjectToString, BytesToString, Unmarshal_marshal]
  · simp [afterPop_lists]

theorem call_unserved (env : Installers) (w : World) (id nodeId method : GoString)
    (params : GoMap) (timeout : Nat) (r : Redis)
    (hn : w.currentNode = .ok nodeId) (hq : r.lists (rpcKey nodeId) = [])
    (hpush : r.lpushErr = none) (hpop : r.brpopErr = none) (ht : timeout ≠ 0)
    (hd : dispatch env nodeId (decodedRequest id method params) = none) :
    ∃ r1, RpcClientFunc id (serverStep env w) nodeId method params timeout r =
        some (r1, [], some .redisNil) := by
  have h1 : (afterPush r (rpcKey nodeId) (ObjectToString ⟨id, method, params, []⟩)).lists
      (rpcKey nodeId) = [] ++ [ObjectToString ⟨id, method, params, []⟩] := by
    simp [afterPush_lists, hq]
  have h2 := serverIteration_unknown env
    { w with redis := afterPush r (rpcKey nodeId) (ObjectToString ⟨id, method, params, []⟩) }
    nodeId [] _ _ hn hpop h1 (Unmarshal_request id method params) hd
  have h3 : (afterPop (afterPush r (rpcKey nodeId)
      (ObjectToString ⟨id, method, params, []⟩)) (rpcKey nodeId) 0 []).lists (rpcKey nodeId)
      = [] := by
    simp [afterPop_lists]
  have h4 := BRPop_empty _ (rpcKey nodeId) timeout (by exact hpop) h3
  refine ⟨{ afterPop (afterPush r (rpcKey nodeId)
      (ObjectToString ⟨id, method, params, []⟩)) (rpcKey nodeId) 0 [] with
      log := (afterPop (afterPush r (rpcKey nodeId)
        (ObjectToString ⟨id, method, params, []⟩)) (rpcKey nodeId) 0 []).log ++
        [RedisCmd.brpop (rpcKey nodeId) timeout] }, ?_⟩
  simp only [RpcClientFunc, LPush_ok _ _ _ hpush, serverStep, h2, h4, if_neg ht]

/-! ## The handlers -/

theorem dispatch_isSome (env : Installers) (nodeId : GoString) (m : RpcMessage)
    (h : m.Method ∈ registered) : (dispatch env nodeId m).isSome = true := by
  simp only [registered, List.mem_cons, List.mem_singleton, List.not_mem_nil, or_false] at h
  simp only [dispatch]
  split_ifs <;> simp_all

theorem dispatch_eq_none (env : Installers) (nodeId : GoString) (m : RpcMessage)
    (h : m.Method ∉ registered) : dispatch env nodeId m = none := by
  simp only [registered, List.mem_cons, List.mem_singleton, List.not_mem_nil, or_false,
    not_or] at h
  simp [dispatch, h.1, h.2.1, h.2.2.1, h.2.2.2]

/-- A handler leaves the id, the method and the parameters of its argument alone. -/
theorem dispatch_frame (env : Installers) (nodeId : GoString) (m reply : RpcMessage)
    (h : dispatch env nodeId m = some reply) :
    reply.Id = m.Id ∧ reply.Method = m.Method ∧ reply.Params = m.Params := by
  simp only [dispatch] at h
  split_ifs at h <;> simp only [Option.some.injEq] at h <;> subst h
  · simp only [RpcServerInstallDep]; split_ifs <;> simp
  · simp only [RpcServerUninstallDep]; split_ifs <;> simp
  · simp only [RpcServerInstallLang]; split_ifs <;> simp
  · simp only [RpcServerGetInstalledDepList]; split_ifs <;> simp

/-- The result of a handler depends on the method, on what `GetRpcParam` reads
and on the result the message arrives with. -/
theorem dispatch_result_congr (env : Installers) (nodeId : GoString) (a b : RpcMessage)
    (hm : a.Method = b.Method) (hr : a.Result = b.Result)
    (hp : ∀ k, GetRpcParam k a.Params = GetRpcParam k b.Params) :
    (dispatch env nodeId a).map RpcMessage.Result =
      (dispatch env nodeId b).map RpcMessage.Result := by
  simp only [dispatch, hm]
  split_ifs <;>
    simp only [Option.map_some', Option.map_none', RpcServerInstallDep, RpcServerUninstallDep,
      RpcServerInstallLang, RpcServerGetInstalledDepList, hp] <;>
    split_ifs <;> simp [hr]

/-- With valid installer outputs every handler result is valid UTF-8 when the
incoming result is. -/
theorem dispatch_result_valid (env : Installers) (nodeId : GoString) (m reply : RpcMessage)
    (henv : env.validOutputs) (hr : validUTF8 m.Result = true)
    (h : dispatch env nodeId m = some reply) : validUTF8 reply.Result = true := by
  obtain ⟨h1, h2, h3⟩ := henv
  simp only [dispatch] at h
  split_ifs at h <;> simp only [Option.some.injEq] at h <;> subst h
  · simp only [RpcServerInstallDep]; split_ifs <;> simp [hr, h2]
  · simp only [RpcServerUninstallDep]; split_ifs <;> simp [hr, h3]
  · simp only [RpcServerInstallLang]; split_ifs <;> simp [hr, h1]
  · simp only [RpcServerGetInstalledDepList]
    split_ifs <;> simp [hr, validUTF8_marshalDepList]

theorem GetRpcParam_deepEqual (a b : GoMap) (h : GoMap.DeepEqual a b) (k : GoString) :
    GetRpcParam k a = GetRpcParam k b := by
  simp [GetRpcParam, h.2 k]

theorem validUTF8_registered (method : GoString) (h : method ∈ registered) :
    validUTF8 method = true := by
  simp only [registered, List.mem_cons, List.mem_singleton, List.not_mem_nil, or_false] at h
  rcases h with h | h | h | h <;> subst h <;> decide

/-! ## The inputs of the scenarios, decoded -/

theorem Unmarshal_pingMsg : Unmarshal (ObjectToString pingMsg) zeroMsg = (pingMsg, none) := by
  have h := Unmarshal_request (lit "1") (lit "ping") none
  have h2 : decodedRequest (lit "1") (lit "ping") none = pingMsg := by decide
  rw [h2] at h
  exact h

theorem coerce_eq_of_no_replacement (s t : GoString) (h : coerce s = t)
    (ht : GoChar.rune 0xFFFD ∉ t) : s = t := by
  induction s generalizing t with
  | nil => simpa [coerce] using h
  | cons x xs ih =>
    cases t with
    | nil => simp [coerce] at h
    | cons y ys =>
      simp only [coerce, List.map_cons, List.cons.injEq] at h
      simp only [List.mem_cons, not_or] at ht
      have h2 := ih ys h.2 ht.2
      cases x with
      | bad b => exact absurd h.1.symm (by simpa [coerceChar, eq_comm] using ht.1)
      | rune c => simp only [coerceChar] at h; rw [h.1, h2]

theorem not_registered_coerce (method : GoString) (h : method ∉ registered) :
    coerce method ∉ registered := by
  intro hc
  have hno : GoChar.rune 0xFFFD ∉ coerce method := by
    revert hc
    generalize coerce method = t
    intro hc
    simp only [registered, List.mem_cons, List.mem_singleton, List.not_mem_nil, or_false] at hc
    rcases hc with hc | hc | hc | hc <;> subst hc <;> decide
  have := coerce_eq_of_no_replacement method (coerce method) rfl hno
  rw [← this] at hc
  exact h hc

theorem Unmarshal_sampleMsg :
    Unmarshal (ObjectToString sampleMsg) zeroMsg =
      (⟨sampleMsg.Id, sampleMsg.Method, decodedParams sampleMsg.Params none, sampleMsg.Result⟩,
        none) := by
  simp only [ObjectToString, BytesToString, Unmarshal_marshal]
  rfl

/-! ## The client wrappers against a live server loop -/

theorem coerce_registered (method : GoString) (h : method ∈ registered) :
    coerce method = method :=
  coerce_valid method (validUTF8_registered method h)

/-- A served call of a registered method returns no error, whatever the
parameters and the installers are. -/
theorem call_served_ok (env : Installers) (w : World) (id nodeId method : GoString)
    (params : GoMap) (timeout : Nat) (r : Redis)
    (hm : method ∈ registered) (hn : w.currentNode = .ok nodeId)
    (hq : r.lists (rpcKey nodeId) = []) (hpush : r.lpushErr = none) (hpop : r.brpopErr = none) :
    ∃ r1 out, RpcClientFunc id (serverStep env w) nodeId method params timeout r =
      some (r1, out, none) := by
  have hsome := dispatch_isSome env nodeId (decodedRequest id method params) (by
    simpa [decodedRequest, coerce_registered method hm] using hm)
  obtain ⟨reply, hreply⟩ := Option.isSome_iff_exists.mp hsome
  obtain ⟨r1, hcall, _⟩ := call_served env w id nodeId method params timeout r reply hn hq hpush
    hpop hreply
  exact ⟨r1, _, hcall⟩

theorem decoded_lang (lang : GoString) :
    GetRpcParam (lit "lang") (decodedParams (some (mapSet (lit "lang") lang [])) none) =
      coerce lang := by
  have h := GetRpcParam_decoded [(lit "lang", lang)] none (lit "lang")
    (by simp [coerceEntries]) rfl
  have h2 : mapSet (lit "lang") lang [] = [(lit "lang", lang)] := rfl
  rw [h2, h]
  simp [GetRpcParam, GoMap.find?, coerceEntries, lookup_cons_ite, coerce_lit_lang]

theorem unmarshalDepList_empty : unmarshalDepList [] = (none, some .jsonSyntax) := by decide

/-- The dependency-list wrapper against a live server loop: the list of the
installer for `python` and `nodejs`, a decoding error of the empty result for
every other language. -/
theorem depList_call (env : Installers) (w : World) (id nodeId lang : GoString) (r : Redis)
    (hn : w.currentNode = .ok nodeId) (hq : r.lists (rpcKey nodeId) = [])
    (hpush : r.lpushErr = none) (hpop : r.brpopErr = none) :
    ∃ r1, RpcClientGetInstalledDepList id (serverStep env w) nodeId lang r =
      some (r1,
        if coerce lang = Python then
          (coerceDepList (env.GetPythonLocalInstalledDepList nodeId).1, none)
        else if coerce lang = Nodejs then
          (coerceDepList (env.GetNodejsLocalInstalledDepList nodeId).1, none)
        else (none, some .jsonSyntax)) := by
  have hd : dispatch env nodeId
      (decodedRequest id RpcGetInstalledDepList (some (mapSet (lit "lang") lang []))) =
      some (RpcServerGetInstalledDepList env nodeId
        (decodedRequest id RpcGetInstalledDepList (some (mapSet (lit "lang") lang [])))) := by
    have hc : coerce RpcGetInstalledDepList = RpcGetInstalledDepList := by decide
    have h1 : RpcGetInstalledDepList ≠ RpcInstallDep := by decide
    have h2 : RpcGetInstalledDepList ≠ RpcUninstallDep := by decide
    have h3 : RpcGetInstalledDepList ≠ RpcInstallLang := by decide
    simp [dispatch, decodedRequest, hc, h1, h2, h3]
  obtain ⟨r1, hcall, _⟩ := call_served env w id nodeId RpcGetInstalledDepList
    (some (mapSet (lit "lang") lang [])) 10 r _ hn hq hpush hpop hd
  refine ⟨r1, ?_⟩
  simp only [RpcClientGetInstalledDepList, hcall]
  have hl : GetRpcParam (lit "lang")
      (decodedRequest id RpcGetInstalledDepList (some (mapSet (lit "lang") lang []))).Params =
      coerce lang := decoded_lang lang
  simp only [RpcServerGetInstalledDepList, hl]
  by_cases hpy : coerce lang = Python
  · simp only [hpy, if_true, coerce_valid _ (validUTF8_marshalDepList _),
      unmarshalDepList_marshal]
  · by_cases hno : coerce lang = Nodejs
    · have hnp : ¬ (Nodejs = Python) := by decide
      simp only [hno, hnp, if_true, if_false, coerce_valid _ (validUTF8_marshalDepList _),
        unmarshalDepList_marshal]
    · simp only [hpy, hno, if_false, decodedRequest]
      have : coerce ([] : GoString) = [] := rfl
      rw [this, unmarshalDepList_empty]

/-! ## The claims -/

/-- C1, as stated, fails.  The envelope whose id is the single byte `0xFF` is
encoded with the id `\ufffd`, so that decoding yields the id U+FFFD, not the
original id.  And the client decodes into its request variable, whose map
`Unmarshal` keeps and extends: decoding an envelope with an empty parameter
map there leaves the parameters of the request in place. -/
theorem C1_round_trip_fails :
    (Unmarshal (ObjectToString badIdMsg) zeroMsg).1.Id = [.rune 0xFFFD] ∧
      ¬ RpcMessage.DeepEqual (Unmarshal (ObjectToString badIdMsg) zeroMsg).1 badIdMsg ∧
      (Unmarshal (ObjectToString emptyParamsMsg) sampleMsg).1.Params.find? (lit "lang") =
        some (lit "python") ∧
      ¬ RpcMessage.DeepEqual (Unmarshal (ObjectToString emptyParamsMsg) sampleMsg).1
        emptyParamsMsg := by
  have h : (Unmarshal (ObjectToString emptyParamsMsg) sampleMsg).1.Params.find? (lit "lang") =
      some (lit "python") := by
    simp only [ObjectToString, BytesToString, Unmarshal_marshal]
    decide
  refine ⟨?_, ?_, h, ?_⟩
  · simp [ObjectToString, BytesToString, Unmarshal_marshal, badIdMsg, coerce, coerceChar]
  · simp [ObjectToString, BytesToString, Unmarshal_marshal, badIdMsg, coerce, coerceChar,
      RpcMessage.DeepEqual]
  · intro hd
    have h2 := hd.2.2.1.2 (lit "lang")
    rw [h] at h2
    exact absurd h2 (by decide)

/-- C1, amended: for every envelope `m` whose strings are valid UTF-8 (empty
strings and strings with `:` included) and every variable `t` that holds no
parameter key that `m` lacks (the empty variable of the server, the request
variable of the client), decoding `ObjectToString m` into `t` succeeds and
yields an envelope equal to `m` in all four fields. -/
theorem C1_envelope_round_trip (m t : RpcMessage) (hv : m.validUTF8 = true)
    (hwf : m.Params.WF) (htwf : t.Params.WF)
    (ht : ∀ k, m.Params.find? k = none → t.Params.find? k = none) :
    (Unmarshal (ObjectToString m) t).2 = none ∧
      (Unmarshal (ObjectToString m) t).1.Params.WF ∧
      RpcMessage.DeepEqual (Unmarshal (ObjectToString m) t).1 m := by
  simp only [RpcMessage.validUTF8, Bool.and_eq_true] at hv
  obtain ⟨⟨⟨h1, h2⟩, h3⟩, h4⟩ := hv
  simp only [ObjectToString, BytesToString, Unmarshal_marshal, RpcMessage.DeepEqual,
    coerce_valid _ h1, coerce_valid _ h2, coerce_valid _ h3, true_and]
  exact ⟨decodedParams_WF _ _ htwf, decodedParams_deepEqual _ _ h4 hwf ht, trivial⟩

/-- C1, amended, at an envelope with a `:` in its result and two parameters,
decoded into the empty variable. -/
theorem C1_envelope_round_trip_witness :
    (Unmarshal (ObjectToString sampleMsg) zeroMsg).2 = none ∧
      (Unmarshal (ObjectToString sampleMsg) zeroMsg).1.Params.WF ∧
      RpcMessage.DeepEqual (Unmarshal (ObjectToString sampleMsg) zeroMsg).1 sampleMsg :=
  C1_envelope_round_trip sampleMsg zeroMsg (by decide) (by decide) trivial (fun _ _ => rfl)

/-- C2, as stated, fails: when the installer prints the byte `0xFF`, the
handler applied to the request has the result `0xFF`, but the call returns
U+FFFD. -/
theorem C2_invalid_utf8_output_differs :
    (RpcClientFunc (lit "7c9e6679") (serverStep garbledInstallers sampleWorld) sampleNode
        RpcInstallDep sampleParams 10 emptyRedis).map Prod.snd =
        some ([.rune 0xFFFD], none) ∧
      (dispatch garbledInstallers sampleNode
        ⟨lit "7c9e6679", RpcInstallDep, sampleParams, []⟩).map RpcMessage.Result =
        some [.bad 255] := by
  have hd : dispatch garbledInstallers sampleNode
      (decodedRequest (lit "7c9e6679") RpcInstallDep sampleParams) =
      some ⟨lit "7c9e6679", RpcInstallDep, decodedParams sampleParams none, [.bad 255]⟩ := by
    decide
  obtain ⟨r1, h, _⟩ := call_served garbledInstallers sampleWorld (lit "7c9e6679") sampleNode
    RpcInstallDep sampleParams 10 emptyRedis _ rfl rfl rfl rfl hd
  refine ⟨?_, by decide⟩
  rw [h]
  rfl

/-- C2, amended: for every node id, every one of the four registered methods
and every parameter map whose keys and values are valid UTF-8, when the
installer outputs are valid UTF-8, starting from an empty queue `rpc:<nodeId>`
with the pushes and the pops succeeding, the sequence client push, one
server-loop iteration, client pop makes `RpcClientFunc` return `err = nil` and
the `Result` of the handler applied directly to the request message. -/
theorem C2_call_round_trip (env : Installers) (w : World) (id nodeId method : GoString)
    (params : GoMap) (timeout : Nat) (r : Redis)
    (hm : method ∈ registered) (hn : w.currentNode = .ok nodeId)
    (hq : r.lists (rpcKey nodeId) = []) (hpush : r.lpushErr = none) (hpop : r.brpopErr = none)
    (hv : validEntries (params.getD []) = true) (hwf : params.WF) (henv : env.validOutputs) :
    (dispatch env nodeId ⟨id, method, params, []⟩).isSome = true ∧
      (RpcClientFunc id (serverStep env w) nodeId method params timeout r).map Prod.snd =
        (dispatch env nodeId ⟨id, method, params, []⟩).map fun m => (m.Result, none) := by
  have hmv := coerce_valid method (validUTF8_registered method hm)
  have hcongr := dispatch_result_congr env nodeId (decodedRequest id method params)
    ⟨id, method, params, []⟩ hmv rfl
    (GetRpcParam_deepEqual _ _ (decodedParams_deepEqual params none hv hwf (fun _ _ => rfl)))
  have hsome := dispatch_isSome env nodeId (decodedRequest id method params) (by
    simpa [decodedRequest, hmv] using hm)
  obtain ⟨reply, hreply⟩ := Option.isSome_iff_exists.mp hsome
  obtain ⟨r1, hcall, _⟩ := call_served env w id nodeId method params timeout r reply hn hq hpush
    hpop hreply
  have hvalid := dispatch_result_valid env nodeId _ reply henv (by rfl) hreply
  refine ⟨dispatch_isSome env nodeId _ hm, ?_⟩
  rw [hcall, coerce_valid _ hvalid]
  rw [hreply] at hcongr
  cases hd : dispatch env nodeId ⟨id, method, params, []⟩ with
  | none => rw [hd] at hcongr; simp at hcongr
  | some m =>
    rw [hd] at hcongr
    simp only [Option.map_some', Option.some.injEq] at hcongr
    simp [hcongr]

/-- C2, amended, at the scenario of the spec: `install_dep` with `lang=python`,
`dep_name=requests` and the installer output `Successfully installed requests`
returns exactly that string and no error. -/
theorem C2_call_round_trip_witness :
    (RpcClientFunc (lit "7c9e6679") (serverStep scenarioInstallers sampleWorld) sampleNode
        RpcInstallDep sampleParams 10 emptyRedis).map Prod.snd =
      some (lit "Successfully installed requests", none) := by
  have h := C2_call_round_trip scenarioInstallers sampleWorld (lit "7c9e6679") sampleNode
    RpcInstallDep sampleParams 10 emptyRedis (by decide) rfl rfl rfl rfl (by decide) (by decide)
    ⟨by decide, fun d => by
      simp only [scenarioInstallers]
      split_ifs <;> decide, fun _ => rfl⟩
  rw [h.2]
  decide

/-- C3, as stated, fails: a push that fails and a pop that fails with the same
error of the queue store hand the caller the same result and the same error,
so the caller cannot tell the two kinds apart. -/
theorem C3_push_and_pop_failure_alike :
    (RpcClientFunc (lit "7c9e6679") (fun r => r) sampleNode RpcInstallDep sampleParams 10
        pushDownRedis).map Prod.snd = some ([], some (.other 7)) ∧
      (RpcClientFunc (lit "7c9e6679") (fun r => r) sampleNode RpcInstallDep sampleParams 10
        popDownRedis).map Prod.snd = some ([], some (.other 7)) := by
  constructor <;> rfl

/-- C3, amended: with a positive timeout `RpcClientFunc` returns, and it
returns a non-nil error exactly when the push fails, the pop fails or times
out, or the popped payload does not decode; the error is the error of that
step, unchanged; the result is the empty string in each failing case; a pop on
a list that is still empty ends with the nil reply of the store; and when the
push fails no pop is attempted. -/
theorem C3_client_failures (id : GoString) (between : Redis → Redis)
    (nodeId method : GoString) (params : GoMap) (timeout : Nat) (r : Redis)
    (ht : timeout ≠ 0) :
    ∃ r1 result err,
      RpcClientFunc id between nodeId method params timeout r = some (r1, result, err) ∧
      (∀ e, err = some e ↔
        (r.lpushErr = some e ∨
          (r.lpushErr = none ∧
            (BRPop (rpcKey nodeId) timeout (between (LPush (rpcKey nodeId)
              (ObjectToString ⟨id, method, params, []⟩) r).1)).2 = .error e) ∨
          (r.lpushErr = none ∧ ∃ d,
            (BRPop (rpcKey nodeId) timeout (between (LPush (rpcKey nodeId)
              (ObjectToString ⟨id, method, params, []⟩) r).1)).2 = .value d ∧
            (Unmarshal d ⟨id, method, params, []⟩).2 = some e))) ∧
      (err ≠ none → result = []) ∧
      (r.lpushErr = none →
        (between (LPush (rpcKey nodeId) (ObjectToString ⟨id, method, params, []⟩) r).1).brpopErr
          = none →
        (between (LPush (rpcKey nodeId) (ObjectToString ⟨id, method, params, []⟩) r).1).lists
          (rpcKey nodeId) = [] →
        err = some .redisNil) ∧
      (r.lpushErr ≠ none →
        r1.log = r.log ++ [.lpush (rpcKey nodeId) (ObjectToString ⟨id, method, params, []⟩)]) := by
  cases hp : r.lpushErr with
  | some e0 =>
    refine ⟨{ r with log := r.log ++ [RedisCmd.lpush (rpcKey nodeId)
      (ObjectToString ⟨id, method, params, []⟩)] }, [], some e0, ?_, ?_, ?_, ?_, ?_⟩
    · simp only [RpcClientFunc, LPush_error _ _ _ e0 hp]
    · intro e; simp
    · intro _; rfl
    · intro h; simp at h
    · intro _; rfl
  | none =>
    have hpush := LPush_ok r (rpcKey nodeId) (ObjectToString ⟨id, method, params, []⟩) hp
    rcases hb : BRPop (rpcKey nodeId) timeout (between (afterPush r (rpcKey nodeId)
      (ObjectToString ⟨id, method, params, []⟩))) with ⟨r2, res⟩
    cases res with
    | blocked =>
      exfalso
      simp only [BRPop] at hb
      split at hb
      · simp at hb
      · split at hb
        · simp at hb
        · simp [ht] at hb
    | error e0 =>
      refine ⟨r2, [], some e0, ?_, ?_, ?_, ?_, ?_⟩
      · simp only [RpcClientFunc, hpush, hb]
      · intro e; simp [hpush, hb]
      · intro _; rfl
      · intro _ h1 h2
        rw [hpush] at h1 h2
        rw [BRPop_empty _ _ _ h1 h2] at hb
        simp only [if_neg ht, Prod.mk.injEq, PopResult.error.injEq] at hb
        rw [hb.2]
      · intro h; simp at h
    | value d =>
      rcases hu : Unmarshal d ⟨id, method, params, []⟩ with ⟨m1, e1⟩
      cases e1 with
      | some e0 =>
        refine ⟨r2, [], some e0, ?_, ?_, ?_, ?_, ?_⟩
        · simp only [RpcClientFunc, hpush, hb, hu]
        · intro e; simp [hpush, hb, hu]
        · intro _; rfl
        · intro _ h1 h2
          rw [hpush] at h1 h2
          rw [BRPop_empty _ _ _ h1 h2] at hb
          simp [ht] at hb
        · intro h; simp at h
      | none =>
        refine ⟨r2, m1.Result, none, ?_, ?_, ?_, ?_, ?_⟩
        · simp only [RpcClientFunc, hpush, hb, hu]
        · intro e; simp [hpush, hb, hu]
        · intro h; exact absurd rfl h
        · intro _ h1 h2
          rw [hpush] at h1 h2
          rw [BRPop_empty _ _ _ h1 h2] at hb
          simp [ht] at hb
        · intro h; simp at h

/-- C3, amended, at a call with the timeout of ten seconds against a queue
store that refuses pushes. -/
theorem C3_client_failures_witness :
    ∃ r1 result err,
      RpcClientFunc (lit "7c9e6679") (fun r => r) sampleNode RpcInstallDep sampleParams 10
        pushDownRedis = some (r1, result, err) ∧
      (∀ e, err = some e ↔
        (pushDownRedis.lpushErr = some e ∨
          (pushDownRedis.lpushErr = none ∧
            (BRPop (rpcKey sampleNode) 10 ((fun r => r) (LPush (rpcKey sampleNode)
              (ObjectToString ⟨lit "7c9e6679", RpcInstallDep, sampleParams, []⟩)
              pushDownRedis).1)).2 = .error e) ∨
          (pushDownRedis.lpushErr = none ∧ ∃ d,
            (BRPop (rpcKey sampleNode) 10 ((fun r => r) (LPush (rpcKey sampleNode)
              (ObjectToString ⟨lit "7c9e6679", RpcInstallDep, sampleParams, []⟩)
              pushDownRedis).1)).2 = .value d ∧
            (Unmarshal d ⟨lit "7c9e6679", RpcInstallDep, sampleParams, []⟩).2 = some e))) ∧
      (err ≠ none → result = []) ∧
      (pushDownRedis.lpushErr = none →
        ((fun r => r) (LPush (rpcKey sampleNode)
          (ObjectToString ⟨lit "7c9e6679", RpcInstallDep, sampleParams, []⟩)
          pushDownRedis).1).brpopErr = none →
        ((fun r => r) (LPush (rpcKey sampleNode)
          (ObjectToString ⟨lit "7c9e6679", RpcInstallDep, sampleParams, []⟩)
          pushDownRedis).1).lists (rpcKey sampleNode) = [] →
        err = some .redisNil) ∧
      (pushDownRedis.lpushErr ≠ none →
        r1.log = pushDownRedis.log ++ [.lpush (rpcKey sampleNode)
          (ObjectToString ⟨lit "7c9e6679", RpcInstallDep, sampleParams, []⟩)]) :=
  C3_client_failures (lit "7c9e6679") (fun r => r) sampleNode RpcInstallDep sampleParams 10
    pushDownRedis (by decide)

/-- C4: for every request that decodes to an envelope whose method is not one
of the four registered ones, the iteration of the server loop that pops it
removes it from `rpc:<nodeId>`, invokes no handler, pushes nothing onto any
queue and leaves the loop running; if the request was alone on the queue, a
client that then pops with a positive timeout gets the nil reply of a timeout.
In particular a call of `RpcClientFunc` for such a method against the live
server loop returns the empty result and that timeout error. -/
theorem C4_unknown_method (env : Installers) (w : World) (nodeId : GoString)
    (hn : w.currentNode = .ok nodeId) :
    (∀ q p m, w.redis.brpopErr = none → w.redis.lists (rpcKey nodeId) = q ++ [p] →
      Unmarshal p zeroMsg = (m, none) → m.Method ∉ registered →
      ∃ w1, serverIteration env w = some (w1, .Running) ∧
        w1.redis.lists (rpcKey nodeId) = q ∧
        (∀ k, k ≠ rpcKey nodeId → w1.redis.lists k = w.redis.lists k) ∧
        w1.handled = w.handled ∧
        w1.redis.log = w.redis.log ++ [.brpop (rpcKey nodeId) 0] ∧
        (q = [] → ∀ timeout, timeout ≠ 0 →
          (BRPop (rpcKey nodeId) timeout w1.redis).2 = .error .redisNil)) ∧
    (∀ id method params timeout r, method ∉ registered → timeout ≠ 0 →
      r.lists (rpcKey nodeId) = [] → r.lpushErr = none → r.brpopErr = none →
      ∃ r1, RpcClientFunc id (serverStep env w) nodeId method params timeout r =
        some (r1, [], some .redisNil)) := by
  constructor
  · intro q p m herr hq hd hm
    refine ⟨_, serverIteration_unknown env w nodeId q p m hn herr hq hd
      (dispatch_eq_none env nodeId m hm), ?_, ?_, rfl, rfl, ?_⟩
    · simp [afterPop_lists]
    · intro k hk; simp [afterPop_lists, hk]
    · intro hq0 timeout ht
      have hl : (afterPop w.redis (rpcKey nodeId) 0 q).lists (rpcKey nodeId) = [] := by
        simp [afterPop_lists, hq0]
      rw [BRPop_empty _ _ _ (by exact herr) hl]
      simp [ht]
  · intro id method params timeout r hm ht hq hpush hpop
    exact call_unserved env w id nodeId method params timeout r hn hq hpush hpop ht
      (dispatch_eq_none env nodeId _ (not_registered_coerce method hm))

/-- C4 at the request `ping`, alone on the queue of the node. -/
theorem C4_unknown_method_witness :
    ∃ w1, serverIteration scenarioInstallers pingWorld = some (w1, .Running) ∧
      w1.redis.lists (rpcKey sampleNode) = [] ∧
      (∀ k, k ≠ rpcKey sampleNode → w1.redis.lists k = pingWorld.redis.lists k) ∧
      w1.handled = pingWorld.handled ∧
      w1.redis.log = pingWorld.redis.log ++ [.brpop (rpcKey sampleNode) 0] ∧
      (([] : List GoString) = [] → ∀ timeout, timeout ≠ 0 →
        (BRPop (rpcKey sampleNode) timeout w1.redis).2 = .error .redisNil) :=
  (C4_unknown_method scenarioInstallers pingWorld sampleNode rfl).1 [] (ObjectToString pingMsg)
    pingMsg rfl (by simp [pingWorld, Redis.setList]) Unmarshal_pingMsg (by decide)

/-- C5, as stated, fails: with the stop flag set, the iteration that runs the
handler for a request but fails to push the reply does not check the flag and
leaves the loop running, and so does the iteration that processes a request
for a method without handler. -/
theorem C5_stop_check_skipped :
    stoppingPushDownWorld.IsRpcStopped = true ∧
      (serverIteration scenarioInstallers stoppingPushDownWorld).map
        (fun x => (x.1.handled.length, x.2)) = some (1, .Running) ∧
      (StopRpcService pingWorld).IsRpcStopped = true ∧
      (serverIteration scenarioInstallers (StopRpcService pingWorld)).map Prod.snd =
        some .Running := by
  refine ⟨rfl, ?_, rfl, ?_⟩
  · obtain ⟨reply, hreply⟩ := Option.isSome_iff_exists.mp (dispatch_isSome scenarioInstallers
      sampleNode ⟨sampleMsg.Id, sampleMsg.Method, decodedParams sampleMsg.Params none,
        sampleMsg.Result⟩ (by decide))
    rw [serverIteration_pushFailed scenarioInstallers stoppingPushDownWorld sampleNode []
      (ObjectToString sampleMsg) _ reply (.other 7) rfl rfl
      (by simp [stoppingPushDownWorld, stoppingWorld, Redis.setList]) Unmarshal_sampleMsg hreply
      rfl]
    rfl
  · rw [serverIteration_unknown scenarioInstallers (StopRpcService pingWorld) sampleNode []
      (ObjectToString pingMsg) pingMsg rfl rfl
      (by simp [pingWorld, StopRpcService, Redis.setList]) Unmarshal_pingMsg (by decide)]
    rfl

/-- C5, amended: in every state where the stop flag has been set, for every
message that next arrives on `rpc:<nodeId>`, decodes to an envelope with a
registered method and has its reply pushed, the loop transitions to `Stopped`
at the end of that iteration and runs no further iteration. -/
theorem C5_stop_after_reply (env : Installers) (w : World) (nodeId : GoString)
    (q : List GoString) (p : GoString) (m : RpcMessage)
    (hs : w.IsRpcStopped = true)
    (hn : w.currentNode = .ok nodeId) (herr : w.redis.brpopErr = none)
    (hq : w.redis.lists (rpcKey nodeId) = q ++ [p]) (hd : Unmarshal p zeroMsg = (m, none))
    (hm : m.Method ∈ registered) (hpush : w.redis.lpushErr = none) :
    ∃ w1, serverIteration env w = some (w1, .Stopped) ∧
      ∀ n, InitRpcService env (n + 1) w = (w1, .Stopped) := by
  obtain ⟨reply, hreply⟩ := Option.isSome_iff_exists.mp (dispatch_isSome env nodeId m hm)
  have h := serverIteration_reply env w nodeId q p m reply hn herr hq hd hreply hpush
  simp only [hs, if_true] at h
  exact ⟨_, h, fun n => by simp only [InitRpcService, h]⟩

/-- C5, amended, at the request of the install-dependency scenario. -/
theorem C5_stop_after_reply_witness :
    ∃ w1, serverIteration scenarioInstallers stoppingWorld = some (w1, .Stopped) ∧
      ∀ n, InitRpcService scenarioInstallers (n + 1) stoppingWorld = (w1, .Stopped) :=
  C5_stop_after_reply scenarioInstallers stoppingWorld sampleNode [] (ObjectToString sampleMsg)
    _ rfl rfl rfl (by simp [stoppingWorld, Redis.setList]) Unmarshal_sampleMsg (by decide) rfl

/-- C6: for every request with a registered method and every outcome of the
installers, the reply of the dispatched handler has the id, the method and the
parameters of the request, and the server pushes its encoding, and nothing
else, onto the key `rpc:<nodeId>` from which it popped the request. -/
theorem C6_reply_shape_and_destination (env : Installers) (w : World) (nodeId : GoString)
    (q : List GoString) (p : GoString) (m : RpcMessage)
    (hn : w.currentNode = .ok nodeId) (herr : w.redis.brpopErr = none)
    (hq : w.redis.lists (rpcKey nodeId) = q ++ [p]) (hd : Unmarshal p zeroMsg = (m, none))
    (hm : m.Method ∈ registered) :
    ∃ reply w1 st, dispatch env nodeId m = some reply ∧
      reply.Id = m.Id ∧ reply.Method = m.Method ∧ reply.Params = m.Params ∧
      serverIteration env w = some (w1, st) ∧
      w1.redis.log = w.redis.log ++
        [.brpop (rpcKey nodeId) 0, .lpush (rpcKey nodeId) (ObjectToString reply)] ∧
      (∀ k, k ≠ rpcKey nodeId → w1.redis.lists k = w.redis.lists k) ∧
      (w.redis.lpushErr = none →
        w1.redis.lists (rpcKey nodeId) = ObjectToString reply :: q) := by
  obtain ⟨reply, hreply⟩ := Option.isSome_iff_exists.mp (dispatch_isSome env nodeId m hm)
  obtain ⟨h1, h2, h3⟩ := dispatch_frame env nodeId m reply hreply
  cases hp : w.redis.lpushErr with
  | none =>
    refine ⟨reply, _, _, hreply, h1, h2, h3,
      serverIteration_reply env w nodeId q p m reply hn herr hq hd hreply hp, ?_, ?_, ?_⟩
    · simp [afterPush, afterPop, Redis.setList]
    · intro k hk; simp [afterPush_lists, afterPop_lists, hk]
    · intro _; simp [afterPush_lists, afterPop_lists]
  | some e =>
    refine ⟨reply, _, _, hreply, h1, h2, h3,
      serverIteration_pushFailed env w nodeId q p m reply e hn herr hq hd hreply hp, ?_, ?_, ?_⟩
    · simp [afterPop, Redis.setList]
    · intro k hk; simp [afterPop_lists, hk]
    · intro h; simp at h

/-- C6 at the request of the install-dependency scenario. -/
theorem C6_reply_shape_and_destination_witness :
    ∃ reply w1 st,
      dispatch scenarioInstallers sampleNode
        ⟨sampleMsg.Id, sampleMsg.Method, decodedParams sampleMsg.Params none, sampleMsg.Result⟩
        = some reply ∧
      reply.Id = sampleMsg.Id ∧ reply.Method = sampleMsg.Method ∧
      reply.Params = decodedParams sampleMsg.Params none ∧
      serverIteration scenarioInstallers stoppingWorld = some (w1, st) ∧
      w1.redis.log = stoppingWorld.redis.log ++
        [.brpop (rpcKey sampleNode) 0, .lpush (rpcKey sampleNode) (ObjectToString reply)] ∧
      (∀ k, k ≠ rpcKey sampleNode → w1.redis.lists k = stoppingWorld.redis.lists k) ∧
      (stoppingWorld.redis.lpushErr = none →
        w1.redis.lists (rpcKey sampleNode) = ObjectToString reply :: []) :=
  C6_reply_shape_and_destination scenarioInstallers stoppingWorld sampleNode []
    (ObjectToString sampleMsg) _ rfl rfl (by simp [stoppingWorld, Redis.setList])
    Unmarshal_sampleMsg (by decide)

/-- C7: for every popped payload that does not decode to an envelope, the
iteration of the server loop drops the payload (it is nowhere on the queue
afterwards), invokes no handler, pushes no reply, and the loop stays running
and goes on with the next iteration. -/
theorem C7_malformed_payload (env : Installers) (w : World) (nodeId : GoString)
    (q : List GoString) (p : GoString) (e : GoError)
    (hn : w.currentNode = .ok nodeId) (herr : w.redis.brpopErr = none)
    (hq : w.redis.lists (rpcKey nodeId) = q ++ [p]) (hd : (Unmarshal p zeroMsg).2 = some e) :
    ∃ w1, serverIteration env w = some (w1, .Running) ∧
      w1.redis.lists (rpcKey nodeId) = q ∧
      (∀ k, k ≠ rpcKey nodeId → w1.redis.lists k = w.redis.lists k) ∧
      w1.handled = w.handled ∧
      w1.redis.log = w.redis.log ++ [.brpop (rpcKey nodeId) 0] ∧
      ∀ n, InitRpcService env (n + 1) w = InitRpcService env n w1 := by
  have h := serverIteration_malformed env w nodeId q p e hn herr hq hd
  refine ⟨_, h, ?_, ?_, rfl, rfl, ?_⟩
  · simp [afterPop_lists]
  · intro k hk; simp [afterPop_lists, hk]
  · intro n; simp only [InitRpcService, h]

/-- C7 at the payload `not json`. -/
theorem C7_malformed_payload_witness :
    ∃ w1, serverIteration scenarioInstallers garbageWorld = some (w1, .Running) ∧
      w1.redis.lists (rpcKey sampleNode) = [] ∧
      (∀ k, k ≠ rpcKey sampleNode → w1.redis.lists k = garbageWorld.redis.lists k) ∧
      w1.handled = garbageWorld.handled ∧
      w1.redis.log = garbageWorld.redis.log ++ [.brpop (rpcKey sampleNode) 0] ∧
      ∀ n, InitRpcService scenarioInstallers (n + 1) garbageWorld =
        InitRpcService scenarioInstallers n w1 :=
  C7_malformed_payload scenarioInstallers garbageWorld sampleNode [] (lit "not json")
    .jsonSyntax rfl rfl (by simp [garbageWorld, Redis.setList]) (by decide)

/-- C8, as stated, fails: for the language `java`, which no handler knows,
the reply has an empty result, and `RpcClientGetInstalledDepList` returns the
error of decoding it although the push succeeded and the reply was popped. -/
theorem C8_unsupported_language_is_an_error :
    (RpcClientGetInstalledDepList (lit "7c9e6679") (serverStep scenarioInstallers sampleWorld)
        sampleNode (lit "java") emptyRedis).map Prod.snd = some (none, some .jsonSyntax) := by
  obtain ⟨r1, h⟩ := depList_call scenarioInstallers sampleWorld (lit "7c9e6679") sampleNode
    (lit "java") emptyRedis rfl rfl rfl rfl
  rw [h]
  simp only [Option.map_some']
  decide

/-- C8, amended: for every language, dependency name and outcome of the
installers, if the push succeeds and the reply of the server is popped by the
client, `RpcClientInstallLang`, `RpcClientInstallDep` and
`RpcClientUninstallDep` return `err = nil`, and so does
`RpcClientGetInstalledDepList` for the languages `python` and `nodejs`.  The
error of the first three wrappers is always the error of `RpcClientFunc`; the
error of the fourth is that error or the error of decoding the result. -/
theorem C8_wrappers_return_no_error (env : Installers) (w : World)
    (id nodeId lang depName : GoString) (r : Redis)
    (hn : w.currentNode = .ok nodeId) (hq : r.lists (rpcKey nodeId) = [])
    (hpush : r.lpushErr = none) (hpop : r.brpopErr = none) :
    (∃ r1 out, RpcClientInstallLang id (serverStep env w) nodeId lang r =
      some (r1, out, none)) ∧
    (∃ r1 out, RpcClientInstallDep id (serverStep env w) nodeId lang depName r =
      some (r1, out, none)) ∧
    (∃ r1 out, RpcClientUninstallDep id (serverStep env w) nodeId lang depName r =
      some (r1, out, none)) ∧
    (lang = Python ∨ lang = Nodejs →
      ∃ r1 list, RpcClientGetInstalledDepList id (serverStep env w) nodeId lang r =
        some (r1, list, none)) ∧
    (∀ between r0,
      (RpcClientInstallLang id between nodeId lang r0).map (fun x => x.2.2) =
        (RpcClientFunc id between nodeId RpcInstallLang
          (some (mapSet (lit "lang") lang [])) 600 r0).map (fun x => x.2.2) ∧
      (RpcClientInstallDep id between nodeId lang depName r0).map (fun x => x.2.2) =
        (RpcClientFunc id between nodeId RpcInstallDep
          (some (mapSet (lit "dep_name") depName (mapSet (lit "lang") lang []))) 10 r0).map
          (fun x => x.2.2) ∧
      (RpcClientUninstallDep id between nodeId lang depName r0).map (fun x => x.2.2) =
        (RpcClientFunc id between nodeId RpcUninstallDep
          (some (mapSet (lit "dep_name") depName (mapSet (lit "lang") lang []))) 60 r0).map
          (fun x => x.2.2) ∧
      (RpcClientGetInstalledDepList id between nodeId lang r0).map (fun x => x.2.2) =
        (RpcClientFunc id between nodeId RpcGetInstalledDepList
          (some (mapSet (lit "lang") lang [])) 10 r0).map
          (fun x => match x.2.2 with
            | some e => some e
            | none => (unmarshalDepList x.2.1).2)) := by
  refine ⟨?_, ?_, ?_, ?_, ?_⟩
  · obtain ⟨r1, out, h⟩ := call_served_ok env w id nodeId RpcInstallLang
      (some (mapSet (lit "lang") lang [])) 600 r (by decide) hn hq hpush hpop
    exact ⟨r1, out, by simp only [RpcClientInstallLang, h]⟩
  · obtain ⟨r1, out, h⟩ := call_served_ok env w id nodeId RpcInstallDep
      (some (mapSet (lit "dep_name") depName (mapSet (lit "lang") lang []))) 10 r (by decide)
      hn hq hpush hpop
    exact ⟨r1, out, by simp only [RpcClientInstallDep, h]⟩
  · obtain ⟨r1, out, h⟩ := call_served_ok env w id nodeId RpcUninstallDep
      (some (mapSet (lit "dep_name") depName (mapSet (lit "lang") lang []))) 60 r (by decide)
      hn hq hpush hpop
    exact ⟨r1, out, by simp only [RpcClientUninstallDep, h]⟩
  · intro hl
    obtain ⟨r1, h⟩ := depList_call env w id nodeId lang r hn hq hpush hpop
    have hpn : ¬ (Nodejs = Python) := by decide
    rcases hl with hl | hl
    · subst hl
      have hc : coerce Python = Python := by decide
      rw [hc] at h
      exact ⟨r1, coerceDepList (env.GetPythonLocalInstalledDepList nodeId).1, by rw [h]; simp⟩
    · subst hl
      have hc : coerce Nodejs = Nodejs := by decide
      rw [hc] at h
      exact ⟨r1, coerceDepList (env.GetNodejsLocalInstalledDepList nodeId).1, by
        rw [h]; simp [hpn]⟩
  · intro between r0
    refine ⟨?_, ?_, ?_, ?_⟩
    · simp only [RpcClientInstallLang]
      rcases RpcClientFunc id between nodeId RpcInstallLang
        (some (mapSet (lit "lang") lang [])) 600 r0 with _ | ⟨r1, d, _ | e⟩ <;> rfl
    · simp only [RpcClientInstallDep]
      rcases RpcClientFunc id between nodeId RpcInstallDep
        (some (mapSet (lit "dep_name") depName (mapSet (lit "lang") lang []))) 10 r0
        with _ | ⟨r1, d, _ | e⟩ <;> rfl
    · simp only [RpcClientUninstallDep]
      rcases RpcClientFunc id between nodeId RpcUninstallDep
        (some (mapSet (lit "dep_name") depName (mapSet (lit "lang") lang []))) 60 r0
        with _ | ⟨r1, d, _ | e⟩ <;> rfl
    · simp only [RpcClientGetInstalledDepList]
      rcases RpcClientFunc id between nodeId RpcGetInstalledDepList
        (some (mapSet (lit "lang") lang [])) 10 r0 with _ | ⟨r1, d, _ | e⟩
      · rfl
      · simp only [Option.map_some']
        rcases unmarshalDepList d with ⟨l, _ | e2⟩ <;> rfl
      · rfl

/-- C8, amended, at the language `nodejs` and the dependency `requests`. -/
theorem C8_wrappers_return_no_error_witness :
    ∃ r1 list, RpcClientGetInstalledDepList (lit "7c9e6679")
      (serverStep scenarioInstallers sampleWorld) sampleNode Nodejs emptyRedis =
        some (r1, list, none) :=
  (C8_wrappers_return_no_error scenarioInstallers sampleWorld (lit "7c9e6679") sampleNode
    Nodejs (lit "requests") emptyRedis rfl rfl rfl rfl).2.2.2.1 (Or.inr rfl)

/-- C9, as stated, fails: when the collaborator returns a package whose name
is the byte `0xFF`, the client obtains the name U+FFFD, so the returned list
is not the list of the collaborator. -/
theorem C9_invalid_utf8_name_differs :
    (RpcClientGetInstalledDepList (lit "7c9e6679")
        (serverStep garbledListInstallers sampleWorld) sampleNode Nodejs emptyRedis).map
        Prod.snd = some (some [⟨[.rune 0xFFFD], lit "1.0"⟩], none) ∧
      localInstalledDepList garbledListInstallers sampleNode Nodejs =
        some [⟨[.bad 255], lit "1.0"⟩] := by
  obtain ⟨r1, h⟩ := depList_call garbledListInstallers sampleWorld (lit "7c9e6679") sampleNode
    Nodejs emptyRedis rfl rfl rfl rfl
  refine ⟨?_, by decide⟩
  rw [h]
  simp only [Option.map_some']
  decide

/-- C9, amended: for `lang = nodejs` and for `lang = python`, and every list
`L` that the local installed-dependency collaborator returns together with any
error, the result of the reply is the JSON encoding of `L`; when the strings
of `L` are valid UTF-8, `RpcClientGetInstalledDepList`, given that reply,
returns a list equal to `L` with `err = nil`; a nil or empty `L` gives a nil
or empty list, not an error. -/
theorem C9_dependency_list_result (env : Installers) (w : World) (id nodeId lang : GoString)
    (r : Redis) (hl : lang = Nodejs ∨ lang = Python)
    (hn : w.currentNode = .ok nodeId) (hq : r.lists (rpcKey nodeId) = [])
    (hpush : r.lpushErr = none) (hpop : r.brpopErr = none) :
    (∀ msg, GetRpcParam (lit "lang") msg.Params = lang →
      (RpcServerGetInstalledDepList env nodeId msg).Result =
        marshalDepList (localInstalledDepList env nodeId lang)) ∧
    (validDepList (localInstalledDepList env nodeId lang) = true →
      ∃ r1, RpcClientGetInstalledDepList id (serverStep env w) nodeId lang r =
        some (r1, localInstalledDepList env nodeId lang, none)) := by
  have hpn : ¬ (Nodejs = Python) := by decide
  obtain ⟨r1, h⟩ := depList_call env w id nodeId lang r hn hq hpush hpop
  rcases hl with hl | hl
  · subst hl
    have hc : coerce Nodejs = Nodejs := by decide
    rw [hc] at h
    refine ⟨fun msg hm => by simp [RpcServerGetInstalledDepList, hm, localInstalledDepList, hpn],
      fun hv => ⟨r1, ?_⟩⟩
    simp only [localInstalledDepList, hpn, if_false] at hv ⊢
    rw [h]
    simp only [hpn, if_false, if_true, coerceDepList_valid _ hv]
  · subst hl
    have hc : coerce Python = Python := by decide
    rw [hc] at h
    refine ⟨fun msg hm => by simp [RpcServerGetInstalledDepList, hm, localInstalledDepList],
      fun hv => ⟨r1, ?_⟩⟩
    simp only [localInstalledDepList, if_true] at hv ⊢
    rw [h]
    simp only [if_true, coerceDepList_valid _ hv]

/-- C9, amended, at the scenario of the spec: for `nodejs` the collaborator
returns no packages, and the client obtains the empty list and no error. -/
theorem C9_dependency_list_result_witness :
    ∃ r1, RpcClientGetInstalledDepList (lit "7c9e6679")
      (serverStep scenarioInstallers sampleWorld) sampleNode Nodejs emptyRedis =
        some (r1, some [], none) :=
  (C9_dependency_list_result scenarioInstallers sampleWorld (lit "7c9e6679") sampleNode Nodejs
    emptyRedis (Or.inl rfl) rfl rfl rfl rfl).2 (by decide)

/-- C10: with the queue a list that is pushed at the head and popped at the
tail, if nothing touches the queue between the push and the pop of
`RpcClientFunc`, the client pops the oldest payload instead of a reply: on a
queue that was empty it pops its own request, returns the result `""` with
`err = nil` and leaves the queue empty; on a queue that was not empty it
returns the `Result` of the oldest queued message and leaves its own request
on the queue. -/
theorem C10_client_self_pop (id nodeId method : GoString) (params : GoMap) (timeout : Nat)
    (r : Redis) (hpush : r.lpushErr = none) (hpop : r.brpopErr = none) :
    (r.lists (rpcKey nodeId) = [] →
      ∃ r1, RpcClientFunc id (fun x => x) nodeId method params timeout r = some (r1, [], none) ∧
        r1.lists (rpcKey nodeId) = [] ∧
        r1.log = r.log ++ [.lpush (rpcKey nodeId) (ObjectToString ⟨id, method, params, []⟩),
          .brpop (rpcKey nodeId) timeout]) ∧
    (∀ q old m1, r.lists (rpcKey nodeId) = q ++ [old] →
      Unmarshal old ⟨id, method, params, []⟩ = (m1, none) →
      ∃ r1, RpcClientFunc id (fun x => x) nodeId method params timeout r =
          some (r1, m1.Result, none) ∧
        r1.lists (rpcKey nodeId) = ObjectToString ⟨id, method, params, []⟩ :: q) ∧
    (∀ q m0, r.lists (rpcKey nodeId) = q ++ [ObjectToString m0] →
      validUTF8 m0.Result = true →
      ∃ r1, RpcClientFunc id (fun x => x) nodeId method params timeout r =
          some (r1, m0.Result, none) ∧
        r1.lists (rpcKey nodeId) = ObjectToString ⟨id, method, params, []⟩ :: q) := by
  have hp2 : (afterPush r (rpcKey nodeId) (ObjectToString ⟨id, method, params, []⟩)).brpopErr
      = none := hpop
  have hgen : ∀ q old m1, r.lists (rpcKey nodeId) = q ++ [old] →
      Unmarshal old ⟨id, method, params, []⟩ = (m1, none) →
      ∃ r1, RpcClientFunc id (fun x => x) nodeId method params timeout r =
          some (r1, m1.Result, none) ∧
        r1.lists (rpcKey nodeId) = ObjectToString ⟨id, method, params, []⟩ :: q := by
    intro q old m1 hq hu
    have hl : (afterPush r (rpcKey nodeId) (ObjectToString ⟨id, method, params, []⟩)).lists
        (rpcKey nodeId) = (ObjectToString ⟨id, method, params, []⟩ :: q) ++ [old] := by
      simp [afterPush_lists, hq]
    refine ⟨afterPop (afterPush r (rpcKey nodeId) (ObjectToString ⟨id, method, params, []⟩))
      (rpcKey nodeId) timeout (ObjectToString ⟨id, method, params, []⟩ :: q), ?_, ?_⟩
    · simp only [RpcClientFunc, LPush_ok _ _ _ hpush, BRPop_value _ _ _ _ _ hp2 hl, hu]
    · simp [afterPop_lists]
  refine ⟨?_, hgen, ?_⟩
  · intro hq
    have hl : (afterPush r (rpcKey nodeId) (ObjectToString ⟨id, method, params, []⟩)).lists
        (rpcKey nodeId) = [] ++ [ObjectToString ⟨id, method, params, []⟩] := by
      simp [afterPush_lists, hq]
    refine ⟨afterPop (afterPush r (rpcKey nodeId) (ObjectToString ⟨id, method, params, []⟩))
      (rpcKey nodeId) timeout [], ?_, ?_, ?_⟩
    · simp only [RpcClientFunc, LPush_ok _ _ _ hpush, BRPop_value _ _ _ _ _ hp2 hl]
      simp only [ObjectToString, BytesToString, Unmarshal_marshal]
      rfl
    · simp [afterPop_lists]
    · simp [afterPop, afterPush, Redis.setList]
  · intro q m0 hq hv
    have hu : Unmarshal (ObjectToString m0) ⟨id, method, params, []⟩ =
        (⟨coerce m0.Id, coerce m0.Method, decodedParams m0.Params params, m0.Result⟩, none) := by
      simp only [ObjectToString, BytesToString, Unmarshal_marshal, coerce_valid _ hv]
    exact hgen q (ObjectToString m0)
      ⟨coerce m0.Id, coerce m0.Method, decodedParams m0.Params params, m0.Result⟩ hq hu

/-- C10 at a call on the empty queue of the node. -/
theorem C10_client_self_pop_witness :
    ∃ r1, RpcClientFunc (lit "7c9e6679") (fun x => x) sampleNode RpcInstallDep sampleParams 10
        emptyRedis = some (r1, [], none) ∧
      r1.lists (rpcKey sampleNode) = [] ∧
      r1.log = emptyRedis.log ++
        [.lpush (rpcKey sampleNode)
          (ObjectToString ⟨lit "7c9e6679", RpcInstallDep, sampleParams, []⟩),
          .brpop (rpcKey sampleNode) 10] :=
  (C10_client_self_pop (lit "7c9e6679") sampleNode RpcInstallDep sampleParams 10 emptyRedis
    rfl rfl).1 rfl

end Crawlab
